import Mathlib

/-!
# Verification of `src/app.py` (schema-detector)

Shallow embedding of the structured-data (JSON-LD) classifier of
`src/app.py`: the date resolver `parse_date`, the live-blog analyzer
`analyze_liveblog` and the type/author classifier
`extract_hierarchical_types`, together with spec-level characterizations.

Modelling conventions:
* Python values (parsed JSON) are `PyVal`; Python dicts are association
  lists in insertion order (JSON parsing in Python keeps the last binding
  of a duplicated key, so real inputs have unique keys).
* Python exceptions are modelled with `Except String`; the string names
  the exception class (`TypeError`, `AttributeError`, `ValueError`).
* The regex `\d` is modelled as an ASCII digit (the analysed inputs are
  ASCII timestamps).
* Python float arithmetic in the frequency computation is modelled with
  exact rationals; `round(x, 1)` is modelled as round-half-to-even at one
  decimal, matching round's documented behaviour on exactly representable
  values.
-/

mutual
/-- A parsed JSON / Python value: `None`, `bool`, `int`, `str`, `list`,
`dict`. (The analysed code paths never depend on float values.) -/
inductive PyVal : Type where
  | null : PyVal
  | bool : Bool → PyVal
  | int  : Int → PyVal
  | str  : String → PyVal
  | arr  : PyArr → PyVal
  | obj  : PyObj → PyVal

/-- A Python list of `PyVal`s. -/
inductive PyArr : Type where
  | nil  : PyArr
  | cons : PyVal → PyArr → PyArr

/-- A Python dict with string keys, bindings in insertion order. -/
inductive PyObj : Type where
  | nil  : PyObj
  | cons : String → PyVal → PyObj → PyObj
end

/-- Build a `PyArr` from a Lean list. -/
def PyArr.ofList : List PyVal → PyArr
  | [] => .nil
  | v :: l => .cons v (PyArr.ofList l)

/-- Build a `PyObj` from a Lean association list. -/
def PyObj.ofList : List (String × PyVal) → PyObj
  | [] => .nil
  | (k, v) :: l => .cons k v (PyObj.ofList l)

/-- `d.get(k, default)`: first binding of `k`, else the default. -/
def PyObj.getD : PyObj → String → PyVal → PyVal
  | .nil, _, dflt => dflt
  | .cons k v rest, key, dflt => if k = key then v else PyObj.getD rest key dflt

/-- `k in d` for a Python dict. -/
def PyObj.hasKey : PyObj → String → Bool
  | .nil, _ => false
  | .cons k _ rest, key => k = key || PyObj.hasKey rest key

/-- The keys of a dict, in order (what `for x in d` iterates over). -/
def PyObj.keys : PyObj → List String
  | .nil => []
  | .cons k _ rest => k :: PyObj.keys rest

/-- The values of a dict, in order (`d.values()`). -/
def PyObj.values : PyObj → List PyVal
  | .nil => []
  | .cons _ v rest => v :: PyObj.values rest

/-- Python truthiness: `bool(v)`. -/
def pyTruthy : PyVal → Bool
  | .null => false
  | .bool b => b
  | .int n => n ≠ 0
  | .str s => s ≠ ""
  | .arr .nil => false
  | .arr (.cons _ _) => true
  | .obj .nil => false
  | .obj (.cons _ _ _) => true

/-- Python `a or b`: `a` if truthy, else `b`. -/
def pyOr (a b : PyVal) : PyVal := if pyTruthy a then a else b

/-- Escape one character as inside a Python single-quoted `repr`. -/
def escChar (c : Char) : String :=
  if c = '\\' then "\\\\" else if c = '\'' then "\\'" else String.mk [c]

mutual
/-- Python `repr` of a value (simplified: strings are always quoted with
single quotes, escaping backslash and the single quote; Python switches
to double quotes when a string contains `'` but no `"`, a difference no
analysed code path depends on). -/
def pyRepr : PyVal → String
  | .null => "None"
  | .bool true => "True"
  | .bool false => "False"
  | .int n => toString n
  | .str s => "'" ++ ((s.data.map escChar).foldr (· ++ ·) "") ++ "'"
  | .arr l => "[" ++ pyReprArr l ++ "]"
  | .obj d => "\x7b" ++ pyReprObj d ++ "\x7d"

/-- Comma-separated `repr`s of list items. -/
def pyReprArr : PyArr → String
  | .nil => ""
  | .cons v .nil => pyRepr v
  | .cons v rest => pyRepr v ++ ", " ++ pyReprArr rest

/-- Comma-separated `repr`ed bindings of a dict. -/
def pyReprObj : PyObj → String
  | .nil => ""
  | .cons k v .nil => "'" ++ k ++ "': " ++ pyRepr v
  | .cons k v rest => "'" ++ k ++ "': " ++ pyRepr v ++ ", " ++ pyReprObj rest
end

/-- Python `str(v)`: the string itself for a `str`, `repr` otherwise. -/
def pyStrTop : PyVal → String
  | .str s => s
  | v => pyRepr v

/-- Is the pattern `p` a prefix of `l`? -/
def subAt : List Char → List Char → Bool
  | [], _ => true
  | _ :: _, [] => false
  | p :: ps, c :: cs => p = c && subAt ps cs

/-- Does `l` contain the pattern `p` as a contiguous substring? -/
def hasSubList (p : List Char) : List Char → Bool
  | [] => subAt p []
  | c :: cs => subAt p (c :: cs) || hasSubList p cs

/-- Python `pat in s` for strings. -/
def strContains (s pat : String) : Bool := hasSubList pat.data s.data

/-! ## The timestamp regex `\d{4}-\d{2}-\d{2}T\d{2}:\d{2}:\d{2}` -/

/-- Character admissible at position `i` (0-based) of the fixed-width
timestamp pattern: `-` at 4 and 7, `T` at 10, `:` at 13 and 16, a digit
everywhere else. -/
def tsPosOk (i : Nat) (c : Char) : Bool :=
  if i = 4 ∨ i = 7 then c = '-'
  else if i = 10 then c = 'T'
  else if i = 13 ∨ i = 16 then c = ':'
  else c.isDigit

/-- Does `m` consist of exactly 19 characters matching the timestamp
pattern positionally? -/
def tsShapeB (m : List Char) : Bool :=
  m.length = 19 && (List.range 19).all fun i => tsPosOk i (m.getD i ' ')

/-- Match the fixed-width timestamp pattern at the start of `l`, returning
the 19 matched characters. -/
def matchTs (l : List Char) : Option (List Char) :=
  if tsShapeB (l.take 19) then some (l.take 19) else none

/-- `re.search` for the fixed-width timestamp pattern: the leftmost
match. -/
def searchTs : List Char → Option (List Char)
  | [] => none
  | c :: cs =>
    match matchTs (c :: cs) with
    | some m => some m
    | none => searchTs cs

/-- The display form of a matched timestamp: `"T"` replaced by a space
(`match.group(0).replace("T", " ")`). -/
def tsDisplay (m : List Char) : String :=
  String.mk (m.map fun c => if c = 'T' then ' ' else c)

/-- `parse_date` from `src/app.py` (lines 35-43): `None` unless the input
is a truthy string; the matched timestamp with `"T"` replaced by a space
when the regex finds a match; otherwise the raw string. (For a string
input nothing inside the `try` can raise, so the `except` branch is
unreachable.) -/
def parse_date (date_str : PyVal) : Option String :=
  match date_str with
  | .str s =>
    if s = "" then none
    else
      match searchTs s.data with
      | some m => some (tsDisplay m)
      | none => some s
  | _ => none

/-! ### Facts about the timestamp search -/

theorem matchTs_eq_some {l m : List Char} (h : matchTs l = some m) :
    m = l.take 19 ∧ tsShapeB m = true := by
  unfold matchTs at h
  by_cases hb : tsShapeB (l.take 19) = true
  · simp [hb] at h
    exact ⟨h.symm, h ▸ hb⟩
  · simp [hb] at h

theorem searchTs_eq_some {l m : List Char} (h : searchTs l = some m) :
    ∃ n, matchTs (l.drop n) = some m ∧ ∀ k < n, matchTs (l.drop k) = none := by
  induction l with
  | nil => simp [searchTs] at h
  | cons c cs ih =>
    rw [searchTs] at h
    cases hm : matchTs (c :: cs) with
    | some m' =>
      rw [hm] at h
      refine ⟨0, ?_, by omega⟩
      simpa [hm] using h
    | none =>
      rw [hm] at h
      obtain ⟨n, hn, hlt⟩ := ih h
      refine ⟨n + 1, by simpa using hn, ?_⟩
      intro k hk
      cases k with
      | zero => simpa using hm
      | succ k' => simpa using hlt k' (by omega)

/-- A matched timestamp is an infix of the searched string. -/
theorem searchTs_isInfix {l m : List Char} (h : searchTs l = some m) :
    m <:+: l := by
  obtain ⟨n, hn, -⟩ := searchTs_eq_some h
  obtain ⟨hm, -⟩ := matchTs_eq_some hn
  subst hm
  have h1 : (l.drop n).take 19 <+: l.drop n := List.take_prefix 19 (l.drop n)
  exact h1.isInfix.trans (l.drop_suffix n).isInfix

/-- C1 counterexample input. -/
def c1Input : String := "2024-03-01T10:15:00+02:00"

/-- C1, counterexample: the claim says `parse_date` returns exactly the
matched substring `"2024-03-01T10:15:00"`; the code returns the match with
`"T"` replaced by a space, which differs. -/
theorem parse_date_not_exact_match :
    parse_date (.str c1Input) = some "2024-03-01 10:15:00" ∧
    parse_date (.str c1Input) ≠ some "2024-03-01T10:15:00" := by
  constructor
  · rfl
  · intro h
    simp [parse_date, c1Input] at h
    revert h
    decide

/-- C1 (amended): `parse_date` returns null when the input is not a truthy
string (non-strings and the empty string); for a nonempty string in which
the fixed-width pattern `YYYY-MM-DDTHH:MM:SS` matches, it returns the
leftmost matched substring with the `"T"` separator replaced by a space;
for a nonempty string with no match it returns the raw string unchanged;
and every match returned by the search is a 19-character infix of the
input of the positional digit/punctuation shape. -/
theorem parse_date_amended :
    (∀ v : PyVal, (∀ s : String, v ≠ .str s) → parse_date v = none) ∧
    (parse_date (.str "") = none) ∧
    (∀ s : String, s ≠ "" → searchTs s.data = none →
      parse_date (.str s) = some s) ∧
    (∀ (s : String) (m : List Char), s ≠ "" → searchTs s.data = some m →
      parse_date (.str s) = some (tsDisplay m)) ∧
    (∀ (s : String) (m : List Char), searchTs s.data = some m →
      tsShapeB m = true ∧ m <:+: s.data) := by
  refine ⟨?_, rfl, ?_, ?_, ?_⟩
  · intro v hv
    cases v with
    | str s => exact absurd rfl (hv s)
    | null => rfl
    | bool b => rfl
    | int n => rfl
    | arr l => rfl
    | obj d => rfl
  · intro s hs hnone
    simp [parse_date, hs, hnone]
  · intro s m hs hsome
    simp [parse_date, hs, hsome]
  · intro s m hsome
    obtain ⟨n, hn, -⟩ := searchTs_eq_some hsome
    obtain ⟨hm, hshape⟩ := matchTs_eq_some hn
    exact ⟨hshape, searchTs_isInfix hsome⟩

/-- C1 witness: the amended statement applied at concrete inputs. -/
theorem parse_date_amended_witness :
    parse_date (.int 7) = none ∧
    parse_date (.str "not-a-date") = some "not-a-date" ∧
    parse_date (.str c1Input) = some "2024-03-01 10:15:00" := by
  refine ⟨parse_date_amended.1 (.int 7) (fun s h => by cases h), ?_, ?_⟩
  · exact parse_date_amended.2.2.1 "not-a-date" (by decide) (by decide)
  · have := parse_date_amended.2.2.2.1 c1Input "2024-03-01T10:15:00".data
      (by decide) (by decide)
    simpa [tsDisplay] using this

/-! ## Calendar arithmetic (model of `datetime.fromisoformat` on matched
timestamps) -/

/-- Gregorian leap year. -/
def isLeap (y : Nat) : Bool := (y % 4 = 0 && y % 100 ≠ 0) || y % 400 = 0

/-- Days in month `m` of year `y` (months numbered 1-12). -/
def daysInMonth (y m : Nat) : Nat :=
  if m = 2 then (if isLeap y then 29 else 28)
  else if m = 4 ∨ m = 6 ∨ m = 9 ∨ m = 11 then 30
  else 31

/-- Days in the months of year `y` strictly before month `m`. -/
def daysBeforeMonth (y m : Nat) : Nat :=
  (List.range (m - 1)).foldl (fun acc i => acc + daysInMonth y (i + 1)) 0

/-- Number of leap years in `1..y`. -/
def leapCount (y : Nat) : Nat := y / 4 - y / 100 + y / 400

/-- Days in the years strictly before year `y` (year 1 starts at day 0). -/
def daysBeforeYear (y : Nat) : Nat := 365 * (y - 1) + leapCount (y - 1)

/-- Seconds since 0001-01-01T00:00:00 of a calendar instant. -/
def toSecs (y mo d h mi s : Nat) : Int :=
  ((daysBeforeYear y + daysBeforeMonth y mo + (d - 1)) * 86400
    + h * 3600 + mi * 60 + s : Nat)

/-- Numeric value of an ASCII digit character. -/
def digitVal (c : Char) : Nat := c.toNat - 48

/-- Value of a list of ASCII digit characters read in base 10. -/
def digitsToNat (l : List Char) : Nat :=
  l.foldl (fun a c => 10 * a + digitVal c) 0

/-- `datetime.fromisoformat` on a 19-character `YYYY-MM-DDTHH:MM:SS`
string: the instant in seconds when the fields form a valid calendar
date-time (year ≥ 1, month 1-12, day within the month, hour ≤ 23,
minute/second ≤ 59), else `none` (Python raises `ValueError`). -/
def fromIso (m : List Char) : Option Int :=
  let y := digitsToNat (m.take 4)
  let mo := digitsToNat ((m.drop 5).take 2)
  let d := digitsToNat ((m.drop 8).take 2)
  let h := digitsToNat ((m.drop 11).take 2)
  let mi := digitsToNat ((m.drop 14).take 2)
  let s := digitsToNat ((m.drop 17).take 2)
  if 1 ≤ y ∧ 1 ≤ mo ∧ mo ≤ 12 ∧ 1 ≤ d ∧ d ≤ daysInMonth y mo ∧
      h ≤ 23 ∧ mi ≤ 59 ∧ s ≤ 59
  then some (toSecs y mo d h mi s) else none

/-! ## `analyze_liveblog` (src/app.py lines 45-88) -/

/-- Convert a `PyArr` to a Lean list. -/
def PyArr.toList : PyArr → List PyVal
  | .nil => []
  | .cons v l => v :: PyArr.toList l

/-- The accumulator of `analyze_liveblog`'s nested `walk` (its `nonlocal`
variables plus the `update_dates` list). -/
structure LbState where
  update_dates : List PyVal
  created_date : PyVal
  last_modified : PyVal
  fallback_created : PyVal
  fallback_modified : PyVal

/-- Initial accumulator: empty list, all dates `None`. -/
def lbInit : LbState := ⟨[], .null, .null, .null, .null⟩

/-- `"LiveBlogPosting" in str(node.get("@type", ""))`: a substring test on
the `str()` rendering of the `@type` value. -/
def liveMatch (d : PyObj) : Bool :=
  strContains (pyStrTop (PyObj.getD d "@type" (.str ""))) "LiveBlogPosting"

/-- The body of `for up in updates`: for each entry take
`up.get("datePublished") or up.get("dateModified")` and keep it when
truthy; a non-dict entry has no `.get` and raises `AttributeError`. -/
def lbEntryDates : List PyVal → Except String (List PyVal)
  | [] => .ok []
  | up :: rest =>
    match up with
    | .obj d =>
      let dd := pyOr (PyObj.getD d "datePublished" .null)
        (PyObj.getD d "dateModified" .null)
      match lbEntryDates rest with
      | .error e => .error e
      | .ok tail => .ok (if pyTruthy dd then dd :: tail else tail)
    | _ => .error "AttributeError"

/-- Enumerate `updates = node.get("liveBlogUpdate", [])` after the
single-dict normalization `if isinstance(updates, dict): updates =
[updates]`: iterating a dict-wrapped singleton or a list visits its
entries; iterating a nonempty string yields 1-character strings whose
`.get` raises `AttributeError`; `None`, booleans and ints are not
iterable (`TypeError`). -/
def lbUpdates (u : PyVal) : Except String (List PyVal) :=
  match u with
  | .obj d => lbEntryDates [.obj d]
  | .arr l => lbEntryDates l.toList
  | .str s => if s = "" then .ok [] else .error "AttributeError"
  | .null => .error "TypeError"
  | .bool _ => .error "TypeError"
  | .int _ => .error "TypeError"

/-- The fallback-date assignments made at every dict node before the
LiveBlogPosting test (`if node.get("datePublished"): fallback_created =
...`, likewise for `dateModified`). -/
def lbFallbacks (d : PyObj) (st : LbState) : LbState :=
  let st₁ :=
    if pyTruthy (PyObj.getD d "datePublished" .null)
    then { st with fallback_created := PyObj.getD d "datePublished" .null }
    else st
  if pyTruthy (PyObj.getD d "dateModified" .null)
  then { st₁ with fallback_modified := PyObj.getD d "dateModified" .null }
  else st₁

mutual
/-- The nested `walk` of `analyze_liveblog`: record fallback dates at
every dict; at a `liveMatch` dict overwrite `created_date` /
`last_modified` and collect the update dates; then recurse into all
values (and into list items). -/
def lbWalk : PyVal → LbState → Except String LbState
  | .obj d, st₀ =>
    let st := lbFallbacks d st₀
    if liveMatch d then
      match lbUpdates (PyObj.getD d "liveBlogUpdate" (.arr .nil)) with
      | .error e => .error e
      | .ok ds =>
        lbWalkFields d
          { st with
            created_date := PyObj.getD d "datePublished" .null
            last_modified := PyObj.getD d "dateModified" .null
            update_dates := st.update_dates ++ ds }
    else lbWalkFields d st
  | .arr l, st => lbWalkItems l st
  | _, st => .ok st

/-- `for v in node.values(): walk(v)`. -/
def lbWalkFields : PyObj → LbState → Except String LbState
  | .nil, st => .ok st
  | .cons _ v rest, st =>
    match lbWalk v st with
    | .error e => .error e
    | .ok st' => lbWalkFields rest st'

/-- `for it in node: walk(it)`. -/
def lbWalkItems : PyArr → LbState → Except String LbState
  | .nil, st => .ok st
  | .cons v rest, st =>
    match lbWalk v st with
    | .error e => .error e
    | .ok st' => lbWalkItems rest st'
end

/-- `for b in blocks: walk(b)`. -/
def lbWalkBlocks : List PyVal → LbState → Except String LbState
  | [], st => .ok st
  | b :: bs, st =>
    match lbWalk b st with
    | .error e => .error e
    | .ok st' => lbWalkBlocks bs st'

/-- The parsing loop of the frequency block: for each collected date run
the timestamp regex and, on a match, `datetime.fromisoformat`; a
non-string date raises `TypeError`, a matched but calendar-invalid
timestamp raises `ValueError`; unmatched strings are skipped. -/
def parseInstants : List PyVal → Except String (List Int)
  | [] => .ok []
  | d :: rest =>
    match d with
    | .str s =>
      match searchTs s.data with
      | some m =>
        match fromIso m with
        | some t =>
          match parseInstants rest with
          | .error e => .error e
          | .ok tail => .ok (t :: tail)
        | none => .error "ValueError"
      | none => parseInstants rest
    | _ => .error "TypeError"

/-- Consecutive gaps in minutes of a list of instants (in seconds):
`(parsed_updates[i] - parsed_updates[i-1]).total_seconds() / 60`. -/
def lbGaps : List Int → List ℚ
  | a :: b :: rest => ((b - a : Int) : ℚ) / 60 :: lbGaps (b :: rest)
  | _ => []

/-- Round-half-to-even to an integer (Python `round` on an exactly
representable value), computed on the reduced fraction: with
`f = ⌊q⌋ = num.fdiv den` and remainder `r = num - f * den ∈ [0, den)`,
the fractional part `r / den` is compared with `1 / 2` via `2r ≶ den`. -/
def roundHalfEven (q : ℚ) : Int :=
  let f := q.num.fdiv (q.den : Int)
  let r2 := 2 * (q.num - f * (q.den : Int))
  if r2 < (q.den : Int) then f
  else if r2 > (q.den : Int) then f + 1
  else if f % 2 = 0 then f else f + 1

/-- Python `round(x, 1)`. -/
def round1 (q : ℚ) : ℚ := (roundHalfEven (10 * q) : ℚ) / 10

/-- The frequency block of `analyze_liveblog` (lines 70-81): `freq = 0`;
when more than one raw date was collected, parse them inside
`try ... except: pass` (an exception leaves `freq = 0`); with more than
one parsed instant, sort ascending and set `freq` to the rounded mean of
the consecutive gaps in minutes. -/
def lbFreq (update_dates : List PyVal) : ℚ :=
  if update_dates.length > 1 then
    match parseInstants update_dates with
    | .error _ => 0
    | .ok parsed =>
      if parsed.length > 1 then
        let sorted := List.insertionSort (· ≤ ·) parsed
        let ds := lbGaps sorted
        round1 (ds.sum / (ds.length : ℚ))
      else 0
  else 0

/-- The result dict of `analyze_liveblog`. -/
structure LbResult where
  creado : Option String
  ultima_act : Option String
  lb_avg_freq : ℚ
  n_updates : Nat
deriving DecidableEq

/-- `analyze_liveblog` from `src/app.py` (lines 45-88). -/
def analyze_liveblog (blocks : List PyVal) : Except String LbResult :=
  match lbWalkBlocks blocks lbInit with
  | .error e => .error e
  | .ok st =>
    .ok { creado := parse_date (pyOr st.created_date st.fallback_created)
          ultima_act := parse_date (pyOr st.last_modified st.fallback_modified)
          lb_avg_freq := lbFreq st.update_dates
          n_updates := st.update_dates.length }

/-! ## Spec-level view of the collected Update Events -/

mutual
/-- Spec-level collector of the Update Event dates: at every dict node
passing the live-entity test, the (truthy) per-entry dates of its
enumerated `liveBlogUpdate` property, in traversal order; errors mirror
the enumeration errors of the walk. -/
def specLbDates : PyVal → Except String (List PyVal)
  | .obj d =>
    match (if liveMatch d
           then lbUpdates (PyObj.getD d "liveBlogUpdate" (.arr .nil))
           else .ok []) with
    | .error e => .error e
    | .ok here =>
      match specLbDatesFields d with
      | .error e => .error e
      | .ok rest => .ok (here ++ rest)
  | .arr l => specLbDatesItems l
  | _ => .ok []

/-- Update Event dates found under the values of a dict. -/
def specLbDatesFields : PyObj → Except String (List PyVal)
  | .nil => .ok []
  | .cons _ v rest =>
    match specLbDates v with
    | .error e => .error e
    | .ok here =>
      match specLbDatesFields rest with
      | .error e => .error e
      | .ok tail => .ok (here ++ tail)

/-- Update Event dates found under the items of a list. -/
def specLbDatesItems : PyArr → Except String (List PyVal)
  | .nil => .ok []
  | .cons v rest =>
    match specLbDates v with
    | .error e => .error e
    | .ok here =>
      match specLbDatesItems rest with
      | .error e => .error e
      | .ok tail => .ok (here ++ tail)
end

/-- Update Event dates of a whole page (all blocks in order). -/
def specLbDatesBlocks : List PyVal → Except String (List PyVal)
  | [] => .ok []
  | b :: bs =>
    match specLbDates b with
    | .error e => .error e
    | .ok here =>
      match specLbDatesBlocks bs with
      | .error e => .error e
      | .ok tail => .ok (here ++ tail)

theorem lbFallbacks_update_dates (d : PyObj) (st : LbState) :
    (lbFallbacks d st).update_dates = st.update_dates := by
  unfold lbFallbacks
  dsimp only
  split <;> split <;> rfl

mutual
/-- The walk accumulates into `update_dates` exactly the spec-level
Update Event dates, and fails exactly when the spec-level collection
fails. -/
theorem lbWalk_dates (v : PyVal) (st : LbState) :
    (∃ e e', lbWalk v st = .error e ∧ specLbDates v = .error e') ∨
    (∃ st' ds, lbWalk v st = .ok st' ∧ specLbDates v = .ok ds ∧
      st'.update_dates = st.update_dates ++ ds) := by
  cases v with
  | null => exact Or.inr ⟨st, [], rfl, rfl, by simp⟩
  | bool b => exact Or.inr ⟨st, [], rfl, rfl, by simp⟩
  | int n => exact Or.inr ⟨st, [], rfl, rfl, by simp⟩
  | str s => exact Or.inr ⟨st, [], rfl, rfl, by simp⟩
  | arr l =>
    have h := lbWalkItems_dates l st
    simpa [lbWalk, specLbDates] using h
  | obj d =>
    rw [lbWalk, specLbDates]
    have hup := lbFallbacks_update_dates d st
    by_cases hl : liveMatch d
    · rw [if_pos hl, if_pos hl]
      cases hu : lbUpdates (PyObj.getD d "liveBlogUpdate" (.arr .nil)) with
      | error e => exact Or.inl ⟨e, e, rfl, rfl⟩
      | ok ds =>
        have h := lbWalkFields_dates d
          { lbFallbacks d st with
            created_date := PyObj.getD d "datePublished" .null
            last_modified := PyObj.getD d "dateModified" .null
            update_dates := (lbFallbacks d st).update_dates ++ ds }
        cases h with
        | inl h =>
          obtain ⟨e, e', h1, h2⟩ := h
          exact Or.inl ⟨e, e', h1, by simp [h2]⟩
        | inr h =>
          obtain ⟨st', ds', h1, h2, h3⟩ := h
          refine Or.inr ⟨st', ds ++ ds', h1, by simp [h2], ?_⟩
          simp only at h3
          rw [h3, hup]
          simp [List.append_assoc]
    · rw [if_neg hl, if_neg hl]
      have h := lbWalkFields_dates d (lbFallbacks d st)
      cases h with
      | inl h =>
        obtain ⟨e, e', h1, h2⟩ := h
        exact Or.inl ⟨e, e', h1, by simp [h2]⟩
      | inr h =>
        obtain ⟨st', ds', h1, h2, h3⟩ := h
        refine Or.inr ⟨st', ds', h1, by simp [h2], ?_⟩
        rw [h3, hup]

theorem lbWalkFields_dates (d : PyObj) (st : LbState) :
    (∃ e e', lbWalkFields d st = .error e ∧ specLbDatesFields d = .error e') ∨
    (∃ st' ds, lbWalkFields d st = .ok st' ∧ specLbDatesFields d = .ok ds ∧
      st'.update_dates = st.update_dates ++ ds) := by
  cases d with
  | nil => exact Or.inr ⟨st, [], rfl, rfl, by simp⟩
  | cons k v rest =>
    rw [lbWalkFields, specLbDatesFields]
    cases lbWalk_dates v st with
    | inl h =>
      obtain ⟨e, e', h1, h2⟩ := h
      rw [h1, h2]
      exact Or.inl ⟨e, e', rfl, rfl⟩
    | inr h =>
      obtain ⟨st', ds, h1, h2, h3⟩ := h
      rw [h1, h2]
      dsimp only
      cases lbWalkFields_dates rest st' with
      | inl h' =>
        obtain ⟨e, e', h1', h2'⟩ := h'
        rw [h1', h2']
        exact Or.inl ⟨e, e', rfl, rfl⟩
      | inr h' =>
        obtain ⟨st'', ds', h1', h2', h3'⟩ := h'
        rw [h1', h2']
        exact Or.inr ⟨st'', ds ++ ds', rfl, rfl, by
          rw [h3', h3, List.append_assoc]⟩

theorem lbWalkItems_dates (l : PyArr) (st : LbState) :
    (∃ e e', lbWalkItems l st = .error e ∧ specLbDatesItems l = .error e') ∨
    (∃ st' ds, lbWalkItems l st = .ok st' ∧ specLbDatesItems l = .ok ds ∧
      st'.update_dates = st.update_dates ++ ds) := by
  cases l with
  | nil => exact Or.inr ⟨st, [], rfl, rfl, by simp⟩
  | cons v rest =>
    rw [lbWalkItems, specLbDatesItems]
    cases lbWalk_dates v st with
    | inl h =>
      obtain ⟨e, e', h1, h2⟩ := h
      rw [h1, h2]
      exact Or.inl ⟨e, e', rfl, rfl⟩
    | inr h =>
      obtain ⟨st', ds, h1, h2, h3⟩ := h
      rw [h1, h2]
      dsimp only
      cases lbWalkItems_dates rest st' with
      | inl h' =>
        obtain ⟨e, e', h1', h2'⟩ := h'
        rw [h1', h2']
        exact Or.inl ⟨e, e', rfl, rfl⟩
      | inr h' =>
        obtain ⟨st'', ds', h1', h2', h3'⟩ := h'
        rw [h1', h2']
        exact Or.inr ⟨st'', ds ++ ds', rfl, rfl, by
          rw [h3', h3, List.append_assoc]⟩
end

theorem lbWalkBlocks_dates (bs : List PyVal) (st : LbState) :
    (∃ e e', lbWalkBlocks bs st = .error e ∧ specLbDatesBlocks bs = .error e') ∨
    (∃ st' ds, lbWalkBlocks bs st = .ok st' ∧ specLbDatesBlocks bs = .ok ds ∧
      st'.update_dates = st.update_dates ++ ds) := by
  induction bs generalizing st with
  | nil => exact Or.inr ⟨st, [], rfl, rfl, by simp⟩
  | cons b rest ih =>
    rw [lbWalkBlocks, specLbDatesBlocks]
    cases lbWalk_dates b st with
    | inl h =>
      obtain ⟨e, e', h1, h2⟩ := h
      rw [h1, h2]
      exact Or.inl ⟨e, e', rfl, rfl⟩
    | inr h =>
      obtain ⟨st', ds, h1, h2, h3⟩ := h
      rw [h1, h2]
      dsimp only
      cases ih st' with
      | inl h' =>
        obtain ⟨e, e', h1', h2'⟩ := h'
        rw [h1', h2']
        exact Or.inl ⟨e, e', rfl, rfl⟩
      | inr h' =>
        obtain ⟨st'', ds', h1', h2', h3'⟩ := h'
        rw [h1', h2']
        exact Or.inr ⟨st'', ds ++ ds', rfl, rfl, by
          rw [h3', h3, List.append_assoc]⟩

/-! ## Claim-level view of the frequency computation -/

/-- A collected date is "clean" when it is a string that either has no
timestamp match or whose match is a valid calendar instant: exactly the
dates on which the parsing loop cannot raise. -/
def cleanDate (d : PyVal) : Bool :=
  match d with
  | .str s =>
    match searchTs s.data with
    | some m => (fromIso m).isSome
    | none => true
  | _ => false

/-- All collected dates are clean. -/
def cleanDates (ds : List PyVal) : Bool := ds.all cleanDate

/-- The resolvable Update Events: the collected dates that resolve to a
sortable instant. -/
def resolvableInstants (ds : List PyVal) : List Int :=
  ds.filterMap fun d =>
    match d with
    | .str s =>
      match searchTs s.data with
      | some m => fromIso m
      | none => none
    | _ => none

/-- The claimed frequency: mean of the consecutive gaps in minutes of the
resolvable Update Events sorted ascending, rounded to one decimal place;
`0` with fewer than two resolvable events. -/
def claimAvg (ds : List PyVal) : ℚ :=
  if (resolvableInstants ds).length < 2 then 0
  else
    let ts := List.insertionSort (· ≤ ·) (resolvableInstants ds)
    round1 ((lbGaps ts).sum / ((lbGaps ts).length : ℚ))

theorem parseInstants_clean : ∀ ds : List PyVal, cleanDates ds = true →
    parseInstants ds = .ok (resolvableInstants ds)
  | [], _ => rfl
  | d :: rest, h => by
    rw [cleanDates, List.all_cons, Bool.and_eq_true] at h
    obtain ⟨hd, hrest⟩ := h
    have ih := parseInstants_clean rest hrest
    cases d with
    | str s =>
      rw [parseInstants]
      cases hse : searchTs s.data with
      | some m =>
        rw [cleanDate, hse] at hd
        obtain ⟨t, ht⟩ := Option.isSome_iff_exists.mp hd
        simp only [ht, ih]
        simp [resolvableInstants, List.filterMap_cons, hse, ht]
      | none =>
        rw [ih]
        simp [resolvableInstants, List.filterMap_cons, hse]
    | null => simp [cleanDate] at hd
    | bool b => simp [cleanDate] at hd
    | int n => simp [cleanDate] at hd
    | arr l => simp [cleanDate] at hd
    | obj o => simp [cleanDate] at hd

theorem lbGaps_nonneg : ∀ l : List Int, List.Sorted (· ≤ ·) l →
    ∀ q ∈ lbGaps l, 0 ≤ q
  | [], _, q, hq => by simp [lbGaps] at hq
  | [a], _, q, hq => by simp [lbGaps] at hq
  | a :: b :: rest, hs, q, hq => by
    rw [lbGaps] at hq
    rcases List.mem_cons.mp hq with h | h
    · subst h
      have hab : a ≤ b := (List.sorted_cons.mp hs).1 b (by simp)
      have hba : (0 : ℚ) ≤ ((b - a : Int) : ℚ) := by
        exact_mod_cast sub_nonneg.mpr hab
      exact div_nonneg hba (by norm_num)
    · exact lbGaps_nonneg (b :: rest) (List.sorted_cons.mp hs).2 q h

theorem roundHalfEven_nonneg {q : ℚ} (h : 0 ≤ q) : 0 ≤ roundHalfEven q := by
  have hf : 0 ≤ q.num.fdiv (q.den : Int) :=
    Int.fdiv_nonneg (Rat.num_nonneg.mpr h) (Int.natCast_nonneg q.den)
  unfold roundHalfEven
  dsimp only
  split
  · exact hf
  · split
    · omega
    · split
      · exact hf
      · omega

theorem roundHalfEven_intCast (n : Int) : roundHalfEven (n : ℚ) = n := by
  unfold roundHalfEven
  simp [Rat.num_intCast, Rat.den_intCast]

theorem round1_eq {q : ℚ} {n : Int} (h : 10 * q = (n : ℚ)) :
    round1 q = (n : ℚ) / 10 := by
  unfold round1
  rw [h, roundHalfEven_intCast]

theorem round1_nonneg {q : ℚ} (h : 0 ≤ q) : 0 ≤ round1 q := by
  unfold round1
  have h10 : (0 : ℚ) ≤ 10 * q := by positivity
  have hr := roundHalfEven_nonneg h10
  have : (0 : ℚ) ≤ (roundHalfEven (10 * q) : ℚ) := by exact_mod_cast hr
  exact div_nonneg this (by norm_num)

/-- The frequency the code computes is nonnegative, for any collected
dates. -/
theorem lbFreq_nonneg (ds : List PyVal) : 0 ≤ lbFreq ds := by
  unfold lbFreq
  split
  · split
    · exact le_refl 0
    · split
      · apply round1_nonneg
        apply div_nonneg
        · apply List.sum_nonneg
          intro q hq
          exact lbGaps_nonneg _
            (List.sorted_insertionSort (· ≤ ·) _) q hq
        · exact Nat.cast_nonneg _
      · exact le_refl 0
  · exact le_refl 0

/-- On clean dates the code's frequency equals the claimed mean over the
resolvable Update Events. -/
theorem lbFreq_clean_eq (ds : List PyVal) (h : cleanDates ds = true) :
    lbFreq ds = claimAvg ds := by
  unfold lbFreq claimAvg
  rw [parseInstants_clean ds h]
  by_cases hlen : ds.length > 1
  · rw [if_pos hlen]
    dsimp only
    by_cases hr : (resolvableInstants ds).length > 1
    · rw [if_pos hr, if_neg (by omega)]
    · rw [if_neg hr, if_pos (by omega)]
  · rw [if_neg hlen]
    have hle : (resolvableInstants ds).length ≤ ds.length :=
      List.length_filterMap_le _ _
    rw [if_pos (by omega)]

/-! ## Concrete live-blog pages -/

/-- A live-blog update entry with one `datePublished`. -/
def upEntry (d : String) : PyVal := .obj (.cons "datePublished" (.str d) .nil)

/-- A `LiveBlogPosting` block whose `liveBlogUpdate` list carries the
given update dates. -/
def lbBlock (ds : List String) : PyVal :=
  .obj (.cons "@type" (.str "LiveBlogPosting")
    (.cons "liveBlogUpdate" (.arr (PyArr.ofList (ds.map upEntry))) .nil))

/-- Page with three update entries, one of them unparseable. -/
def c7Blocks : List PyVal :=
  [lbBlock ["2024-01-01T00:00:00", "2024-01-01T00:10:00", "not-a-date"]]

/-- The dates collected from `c7Blocks`. -/
def c7Dates : List PyVal :=
  [.str "2024-01-01T00:00:00", .str "2024-01-01T00:10:00", .str "not-a-date"]

/-- The result of `analyze_liveblog` on `c7Blocks`. -/
def c7Res : LbResult := ⟨some "not-a-date", none, 10, 3⟩

/-- Page with update entries at minutes 0, 10 and 25. -/
def c6Blocks : List PyVal :=
  [lbBlock ["2024-01-01T00:00:00", "2024-01-01T00:10:00",
    "2024-01-01T00:25:00"]]

/-- The dates collected from `c6Blocks`. -/
def c6Dates : List PyVal :=
  [.str "2024-01-01T00:00:00", .str "2024-01-01T00:10:00",
    .str "2024-01-01T00:25:00"]

/-- The result of `analyze_liveblog` on `c6Blocks`. -/
def c6Res : LbResult := ⟨some "2024-01-01 00:25:00", none, 25 / 2, 3⟩

/-- Page whose third update date matches the pattern but is not a valid
calendar instant (month 13). -/
def c6BadBlocks : List PyVal :=
  [lbBlock ["2024-01-01T00:00:00", "2024-01-01T00:10:00",
    "2024-13-01T00:00:00"]]

/-- The dates collected from `c6BadBlocks`. -/
def c6BadDates : List PyVal :=
  [.str "2024-01-01T00:00:00", .str "2024-01-01T00:10:00",
    .str "2024-13-01T00:00:00"]

/-! Evaluation helpers for the concrete pages (the rational arithmetic is
evaluated through `norm_num`, the rest by kernel reduction). -/

theorem c6Dates_freq : lbFreq c6Dates = 25 / 2 := by
  unfold lbFreq
  rw [if_pos (show c6Dates.length > 1 by decide)]
  rw [show parseInstants c6Dates =
    .ok [63839664000, 63839664600, 63839665500] from rfl]
  dsimp only
  rw [if_pos (show ([63839664000, 63839664600, 63839665500] :
    List Int).length > 1 by decide)]
  rw [show List.insertionSort (α := Int) (· ≤ ·)
    [63839664000, 63839664600, 63839665500] =
    [63839664000, 63839664600, 63839665500] from rfl]
  simp only [lbGaps, List.sum_cons, List.sum_nil, List.length]
  norm_num
  rw [round1_eq (show (10 : ℚ) * (25 / 2) = ((125 : Int) : ℚ) by norm_num)]
  norm_num

theorem c6_analyze_eval : analyze_liveblog c6Blocks = .ok c6Res := by
  rw [analyze_liveblog, show lbWalkBlocks c6Blocks lbInit =
    .ok ⟨c6Dates, .null, .null, .str "2024-01-01T00:25:00", .null⟩ from rfl]
  dsimp only
  rw [c6Dates_freq]
  rfl

theorem c7Dates_freq : lbFreq c7Dates = 10 := by
  unfold lbFreq
  rw [if_pos (show c7Dates.length > 1 by decide)]
  rw [show parseInstants c7Dates = .ok [63839664000, 63839664600] from rfl]
  dsimp only
  rw [if_pos (show ([63839664000, 63839664600] : List Int).length > 1
    by decide)]
  rw [show List.insertionSort (α := Int) (· ≤ ·) [63839664000, 63839664600] =
    [63839664000, 63839664600] from rfl]
  simp only [lbGaps, List.sum_cons, List.sum_nil, List.length]
  norm_num
  rw [round1_eq (show (10 : ℚ) * 10 = ((100 : Int) : ℚ) by norm_num)]
  norm_num

theorem c7_analyze_eval : analyze_liveblog c7Blocks = .ok c7Res := by
  rw [analyze_liveblog, show lbWalkBlocks c7Blocks lbInit =
    .ok ⟨c7Dates, .null, .null, .str "not-a-date", .null⟩ from rfl]
  dsimp only
  rw [c7Dates_freq]
  rfl

theorem c7Dates_claimAvg : claimAvg c7Dates = 10 := by
  unfold claimAvg
  rw [show resolvableInstants c7Dates = [63839664000, 63839664600] from rfl]
  rw [if_neg (by decide)]
  dsimp only
  rw [show List.insertionSort (α := Int) (· ≤ ·) [63839664000, 63839664600] =
    [63839664000, 63839664600] from rfl]
  simp only [lbGaps, List.sum_cons, List.sum_nil, List.length]
  norm_num
  rw [round1_eq (show (10 : ℚ) * 10 = ((100 : Int) : ℚ) by norm_num)]
  norm_num

theorem c6BadDates_claimAvg : claimAvg c6BadDates = 10 := by
  unfold claimAvg
  rw [show resolvableInstants c6BadDates = [63839664000, 63839664600] from rfl]
  rw [if_neg (by decide)]
  dsimp only
  rw [show List.insertionSort (α := Int) (· ≤ ·) [63839664000, 63839664600] =
    [63839664000, 63839664600] from rfl]
  simp only [lbGaps, List.sum_cons, List.sum_nil, List.length]
  norm_num
  rw [round1_eq (show (10 : ℚ) * 10 = ((100 : Int) : ℚ) by norm_num)]
  norm_num

/-- C6, counterexample: on a page whose collected dates contain a
pattern-matched but calendar-invalid date, two Update Events are still
resolvable with mean gap 10 minutes, yet the code's
`averageIntervalMinutes` is 0, not the mean of the gaps of the resolvable
events: the whole `try` block is abandoned by the `ValueError`. -/
theorem lb_avg_freq_not_mean_of_resolvables :
    specLbDatesBlocks c6BadBlocks = .ok c6BadDates ∧
    (resolvableInstants c6BadDates).length = 2 ∧
    claimAvg c6BadDates = 10 ∧
    (analyze_liveblog c6BadBlocks).map LbResult.lb_avg_freq = .ok 0 ∧
    (0 : ℚ) ≠ 10 := by
  exact ⟨rfl, rfl, c6BadDates_claimAvg, rfl, by norm_num⟩

/-- C6 (amended): whenever `analyze_liveblog` returns normally and every
collected Update Event date is clean — a string whose pattern match, if
any, is a valid calendar instant — `averageIntervalMinutes` is exactly
the mean, rounded to one decimal place (half to even), of the consecutive
gaps in minutes between the resolvable Update Events sorted ascending,
and is 0 with fewer than two resolvable events; if a collected date
raises during resolution the whole computation degrades to 0 instead of
using the remaining resolvable events; the frequency is always ≥ 0; and
events resolving to instants at minutes 0, 10, 25 yield 12.5. -/
theorem lb_avg_freq_amended :
    (∀ (bs : List PyVal) (r : LbResult) (ds : List PyVal),
      analyze_liveblog bs = .ok r → specLbDatesBlocks bs = .ok ds →
      0 ≤ r.lb_avg_freq ∧
      (cleanDates ds = true → r.lb_avg_freq = claimAvg ds)) ∧
    (analyze_liveblog c6Blocks).map LbResult.lb_avg_freq = .ok (25 / 2) := by
  constructor
  · intro bs r ds h1 h2
    rcases lbWalkBlocks_dates bs lbInit with ⟨e, e', he, -⟩ |
      ⟨st, ds', hw, hs, hupd⟩
    · rw [analyze_liveblog, he] at h1
      cases h1
    · rw [analyze_liveblog, hw] at h1
      dsimp only at h1
      injection h1 with h1
      rw [h2] at hs
      injection hs with hs
      subst hs
      have hupd' : st.update_dates = ds := by simpa [lbInit] using hupd
      constructor
      · rw [← h1]
        exact lbFreq_nonneg _
      · intro hc
        rw [← h1]
        dsimp only
        rw [hupd', lbFreq_clean_eq ds hc]
  · rw [c6_analyze_eval]
    rfl

/-- C6 witness: the amended theorem applied to the 0/10/25-minutes page. -/
theorem lb_avg_freq_amended_witness :
    0 ≤ c6Res.lb_avg_freq ∧ c6Res.lb_avg_freq = claimAvg c6Dates := by
  have h := lb_avg_freq_amended.1 c6Blocks c6Res c6Dates c6_analyze_eval rfl
  exact ⟨h.1, h.2 (by decide)⟩

/-- C7: `n_updates` is the number of raw collected update entries,
counted before any sortability filtering, and the frequency is computed
from the collected dates; on a page where one of three collected dates is
unparseable the count (3) strictly exceeds the resolvable events (2) and
the mean (10.0) is computed from those two alone. -/
theorem n_updates_counts_raw_entries :
    (∀ (bs : List PyVal) (r : LbResult), analyze_liveblog bs = .ok r →
      ∃ ds, specLbDatesBlocks bs = .ok ds ∧ r.n_updates = ds.length ∧
        r.lb_avg_freq = lbFreq ds) ∧
    (specLbDatesBlocks c7Blocks = .ok c7Dates ∧
      (analyze_liveblog c7Blocks).map LbResult.n_updates = .ok 3 ∧
      (resolvableInstants c7Dates).length = 2 ∧
      cleanDates c7Dates = true ∧
      claimAvg c7Dates = 10 ∧
      (analyze_liveblog c7Blocks).map LbResult.lb_avg_freq = .ok 10) := by
  constructor
  · intro bs r h
    rcases lbWalkBlocks_dates bs lbInit with ⟨e, e', he, -⟩ |
      ⟨st, ds, hw, hs, hupd⟩
    · rw [analyze_liveblog, he] at h
      cases h
    · rw [analyze_liveblog, hw] at h
      dsimp only at h
      injection h with h
      have hupd' : st.update_dates = ds := by simpa [lbInit] using hupd
      refine ⟨ds, hs, ?_, ?_⟩
      · rw [← h]
        dsimp only
        rw [hupd']
      · rw [← h]
        dsimp only
        rw [hupd']
  · refine ⟨rfl, rfl, rfl, by decide, c7Dates_claimAvg, ?_⟩
    rw [c7_analyze_eval]
    rfl

/-- C7 witness: the raw-count statement applied to the concrete page. -/
theorem n_updates_counts_raw_entries_witness :
    c7Res.n_updates = c7Dates.length ∧ c7Res.lb_avg_freq = lbFreq c7Dates := by
  obtain ⟨ds, hs, hcount, hfreq⟩ :=
    n_updates_counts_raw_entries.1 c7Blocks c7Res c7_analyze_eval
  have h2 : specLbDatesBlocks c7Blocks = .ok c7Dates := rfl
  rw [h2] at hs
  injection hs with hs
  subst hs
  exact ⟨hcount, hfreq⟩

/-! ## C9: which nodes are treated as the live-update entity -/

/-- The string elements of a Python list. -/
def PyArr.strElems : PyArr → List String
  | .nil => []
  | .cons (.str s) rest => s :: rest.strElems
  | .cons _ rest => rest.strElems

/-- The declared type set of a node: the `@type` string, or the string
tokens of an `@type` list; any other shape declares no token. -/
def declaredTypes (d : PyObj) : List String :=
  match PyObj.getD d "@type" .null with
  | .str s => [s]
  | .arr l => l.strElems
  | _ => []

/-- A node whose `@type` contains `LiveBlogPosting` as a substring only. -/
def c9Obj : PyObj :=
  .cons "@type" (.str "LiveBlogPostingX")
    (.cons "datePublished" (.str "2024-01-02T03:04:05")
      (.cons "liveBlogUpdate"
        (.obj (.cons "datePublished" (.str "2024-01-02T03:04:05") .nil)) .nil))

/-- C9, counterexample: the node's declared type set is
`["LiveBlogPostingX"]`, which does not contain the token
`"LiveBlogPosting"`, yet `analyze_liveblog` treats it as the live-update
entity — it enumerates its update (count 1, not 0) and records its
`datePublished` as `createdAt` — because the code tests
`"LiveBlogPosting" in str(node.get("@type", ""))`, a substring match. -/
theorem liveblog_detection_not_token_membership :
    declaredTypes c9Obj = ["LiveBlogPostingX"] ∧
    "LiveBlogPosting" ∉ declaredTypes c9Obj ∧
    (analyze_liveblog [.obj c9Obj]).map LbResult.n_updates = .ok 1 ∧
    (analyze_liveblog [.obj c9Obj]).map LbResult.creado =
      .ok (some "2024-01-02 03:04:05") := by
  exact ⟨rfl, by decide, rfl, rfl⟩

/-- A one-node page for exercising the live-entity test: declared type
`ty`, a `datePublished`, and an update-list value `u`. -/
def lbTestBlock (ty p : String) (u : PyVal) : PyObj :=
  .cons "@type" (.str ty)
    (.cons "datePublished" (.str p) (.cons "liveBlogUpdate" u .nil))

theorem lbWalkItems_singleton (v : PyVal) (st : LbState) :
    lbWalkItems (.cons v .nil) st = lbWalk v st := by
  rw [lbWalkItems]
  cases h : lbWalk v st with
  | error e => rfl
  | ok st' => rfl

theorem live_not_in_empty :
    strContains "" "LiveBlogPosting" = false := by decide

theorem live_in_live :
    strContains "LiveBlogPosting" "LiveBlogPosting" = true := by decide

theorem pyTruthy_str_ne {s : String} (h : s ≠ "") :
    pyTruthy (.str s) = true := by
  simp [pyTruthy, h]

theorem pyOr_null (v : PyVal) : pyOr .null v = v := rfl

theorem parse_date_null : parse_date .null = none := rfl

/-- C9 (amended): `analyze_liveblog` treats a node as the live-update
entity exactly when `"LiveBlogPosting"` occurs as a substring of the
`str()` rendering of its `@type` value (not when the declared type set
contains the token). For such a node it enumerates `liveBlogUpdate`,
normalizing a single update object into a one-element list (the analysis
result is unchanged by wrapping the object in a list), records the
node's dates as entity-level `createdAt`, and with several matching
nodes the last one wins. For a node failing the substring test the
updates are not enumerated and only the fallback dates remain. -/
theorem liveblog_detection_amended :
    (∀ (ty p : String) (ud : PyObj),
      analyze_liveblog [.obj (lbTestBlock ty p (.obj ud))] =
        analyze_liveblog
          [.obj (lbTestBlock ty p (.arr (.cons (.obj ud) .nil)))]) ∧
    (∀ ty p u : String, p ≠ "" → u ≠ "" →
      (strContains ty "LiveBlogPosting" = true →
        analyze_liveblog
            [.obj (lbTestBlock ty p (.arr (.cons (upEntry u) .nil)))] =
          .ok ⟨parse_date (.str p), none, 0, 1⟩) ∧
      (strContains ty "LiveBlogPosting" = false →
        analyze_liveblog
            [.obj (lbTestBlock ty p (.arr (.cons (upEntry u) .nil)))] =
          .ok ⟨parse_date (.str u), none, 0, 0⟩)) ∧
    (∀ p₁ p₂ : String, p₁ ≠ "" → p₂ ≠ "" →
      analyze_liveblog [.obj (lbTestBlock "LiveBlogPosting" p₁ (.arr .nil)),
          .obj (lbTestBlock "LiveBlogPosting" p₂ (.arr .nil))] =
        .ok ⟨parse_date (.str p₂), none, 0, 0⟩) := by
  refine ⟨?_, ?_, ?_⟩
  · intro ty p ud
    simp only [analyze_liveblog, lbWalkBlocks, lbWalk, lbWalkFields,
      lbFallbacks, liveMatch, lbUpdates, lbTestBlock, PyObj.getD,
      PyArr.toList, lbWalkItems_singleton, String.reduceEq, reduceIte]
  · intro ty p u hp hu
    constructor
    · intro hm
      simp only [analyze_liveblog, lbWalkBlocks, lbWalk, lbWalkFields,
        lbWalkItems, lbFallbacks, liveMatch, lbUpdates, lbEntryDates,
        lbTestBlock, upEntry, PyObj.getD, PyArr.toList, pyStrTop,
        pyTruthy_str_ne hp, pyTruthy_str_ne hu, hm, pyOr_null,
        parse_date_null, lbFreq, parseInstants, pyOr, String.reduceEq,
        reduceIte, pyTruthy, live_not_in_empty]
      simp [pyTruthy, hp, hu, lbFreq, lbInit, parse_date_null]
    · intro hm
      simp only [analyze_liveblog, lbWalkBlocks, lbWalk, lbWalkFields,
        lbWalkItems, lbFallbacks, liveMatch, lbUpdates, lbEntryDates,
        lbTestBlock, upEntry, PyObj.getD, PyArr.toList, pyStrTop,
        pyTruthy_str_ne hp, pyTruthy_str_ne hu, hm, pyOr_null,
        parse_date_null, lbFreq, parseInstants, pyOr, String.reduceEq,
        reduceIte, pyTruthy, live_not_in_empty]
      simp [pyTruthy, hp, hu, lbFreq, lbInit, parse_date_null]
  · intro p₁ p₂ hp₁ hp₂
    simp only [analyze_liveblog, lbWalkBlocks, lbWalk, lbWalkFields,
      lbWalkItems, lbFallbacks, liveMatch, lbUpdates, lbEntryDates,
      lbTestBlock, PyObj.getD, PyArr.toList, pyStrTop,
      pyTruthy_str_ne hp₁, pyTruthy_str_ne hp₂, pyOr_null,
      parse_date_null, lbFreq, parseInstants, pyOr, String.reduceEq,
      reduceIte, pyTruthy, live_not_in_empty, live_in_live]
    simp [pyTruthy, hp₁, hp₂, lbFreq, lbInit, parse_date_null]

/-- C9 witness: the amended statement applied at a type whose rendering
contains the substring without declaring the token, and at one that does
not contain it. -/
theorem liveblog_detection_amended_witness :
    analyze_liveblog [.obj (lbTestBlock "XLiveBlogPostingY"
        "2024-01-02T03:04:05" (.arr (.cons (upEntry "2024-05-06T07:08:09")
          .nil)))] =
      .ok ⟨parse_date (.str "2024-01-02T03:04:05"), none, 0, 1⟩ ∧
    analyze_liveblog [.obj (lbTestBlock "Article" "2024-01-02T03:04:05"
        (.arr (.cons (upEntry "2024-05-06T07:08:09") .nil)))] =
      .ok ⟨parse_date (.str "2024-05-06T07:08:09"), none, 0, 0⟩ := by
  constructor
  · exact (liveblog_detection_amended.2.1 "XLiveBlogPostingY"
      "2024-01-02T03:04:05" "2024-05-06T07:08:09" (by decide)
      (by decide)).1 (by decide)
  · exact (liveblog_detection_amended.2.1 "Article" "2024-01-02T03:04:05"
      "2024-05-06T07:08:09" (by decide) (by decide)).2 (by decide)

/-! ## `extract_hierarchical_types` (src/app.py lines 90-132) -/

/-- Apply Python `str` to every element of a list. -/
def PyArr.strMap : PyArr → List String
  | .nil => []
  | .cons v rest => pyStrTop v :: rest.strMap

/-- `current_types = [t] if isinstance(t, str) else [str(x) for x in t]`:
a string is a one-token list; iterating a list applies `str` to each
element; iterating a dict yields its keys; `None`, booleans and ints are
not iterable (`TypeError`). -/
def typeNorm (t : PyVal) : Except String (List String) :=
  match t with
  | .str s => .ok [s]
  | .arr l => .ok l.strMap
  | .obj d => .ok d.keys
  | .null => .error "TypeError"
  | .bool _ => .error "TypeError"
  | .int _ => .error "TypeError"

/-- `article_types` from the author logic. -/
def articleTypes : List String :=
  ["Article", "NewsArticle", "BlogPosting", "LiveBlogPosting"]

/-- `get_author_name`: a dict reads `name` with fallback `alternateName`;
a nonempty list recurses into its first element; any other truthy value
is rendered with `str`; a falsy value yields `None`. -/
def get_author_name : PyVal → PyVal
  | .obj d =>
    pyOr (PyObj.getD d "name" .null) (PyObj.getD d "alternateName" .null)
  | .arr (.cons v _) => get_author_name v
  | v => if pyTruthy v then .str (pyStrTop v) else .null

/-- The accumulator of `extract_hierarchical_types`'s nested `walk`:
`mains`, `subtypes`, the `dates` dict and the author fields. -/
structure EhState where
  mains : List String
  subtypes : List String
  datePub : PyVal
  dateMod : PyVal
  has_real_author : Bool
  author_name : PyVal

/-- Initial accumulator: empty lists, `None` dates, `has_real_author =
False`, `author_name = "No identificado"`. -/
def ehInit : EhState := ⟨[], [], .null, .null, false, .str "No identificado"⟩

/-- The author detection and first-seen-wins date recording performed at
a dict node (after the type tokens were appended). -/
def ehAuthorDates (d : PyObj) (cts : List String) (st : EhState) : EhState :=
  let st₁ :=
    if articleTypes.any (fun a => cts.contains a) then
      if PyObj.hasKey d "author" && pyTruthy (PyObj.getD d "author" .null)
      then
        let nm := get_author_name (PyObj.getD d "author" .null)
        if pyTruthy nm
        then { st with has_real_author := true, author_name := nm }
        else { st with has_real_author := true }
      else st
    else st
  let st₂ :=
    if pyTruthy (PyObj.getD d "datePublished" .null) && !pyTruthy st₁.datePub
    then { st₁ with datePub := PyObj.getD d "datePublished" .null } else st₁
  if pyTruthy (PyObj.getD d "dateModified" .null) && !pyTruthy st₂.dateMod
  then { st₂ with dateMod := PyObj.getD d "dateModified" .null } else st₂

/-- The per-dict-node step: normalize the `@type` value into tokens,
append them into `mains` or `subtypes` according to the context, then run
the author/date logic. -/
def ehNode (d : PyObj) (is_root : Bool) (st : EhState) :
    Except String EhState :=
  match typeNorm (PyObj.getD d "@type" (.str "")) with
  | .error e => .error e
  | .ok cts =>
    let st' := if is_root then { st with mains := st.mains ++ cts }
               else { st with subtypes := st.subtypes ++ cts }
    .ok (ehAuthorDates d cts st')

mutual
/-- The nested `walk` of `extract_hierarchical_types`: process each dict
node with the inherited context, then recurse into its values with root
context exactly for the `"@graph"` key; list items inherit the context
unchanged. -/
def ehWalk : PyVal → Bool → EhState → Except String EhState
  | .obj d, is_root, st =>
    match ehNode d is_root st with
    | .error e => .error e
    | .ok st' => ehWalkFields d st'
  | .arr l, is_root, st => ehWalkItems l is_root st
  | _, _, st => .ok st

/-- `for k, v in node.items(): walk(v, k == "@graph")`. -/
def ehWalkFields : PyObj → EhState → Except String EhState
  | .nil, st => .ok st
  | .cons k v rest, st =>
    match ehWalk v (k == "@graph") st with
    | .error e => .error e
    | .ok st' => ehWalkFields rest st'

/-- `for it in node: walk(it, is_root)`. -/
def ehWalkItems : PyArr → Bool → EhState → Except String EhState
  | .nil, _, st => .ok st
  | .cons v rest, is_root, st =>
    match ehWalk v is_root st with
    | .error e => .error e
    | .ok st' => ehWalkItems rest is_root st'
end

/-- `for b in blocks: walk(b, True)`. -/
def ehWalkBlocks : List PyVal → EhState → Except String EhState
  | [], st => .ok st
  | b :: bs, st =>
    match ehWalk b true st with
    | .error e => .error e
    | .ok st' => ehWalkBlocks bs st'

/-- First-occurrence-preserving deduplication
(`list(dict.fromkeys(...))`), with an accumulator of seen tokens. -/
def dedupAux : List String → List String → List String
  | [], _ => []
  | x :: xs, seen =>
    if seen.contains x then dedupAux xs seen
    else x :: dedupAux xs (x :: seen)

/-- `list(dict.fromkeys(l))`. -/
def dedup (l : List String) : List String := dedupAux l []

/-- The result tuple of `extract_hierarchical_types`. -/
structure EhResult where
  mains : List String
  subtypes : List String
  datePub : PyVal
  dateMod : PyVal
  has_real_author : Bool
  author_name : PyVal

/-- `extract_hierarchical_types` from `src/app.py` (lines 90-132). -/
def extract_hierarchical_types (blocks : List PyVal) :
    Except String EhResult :=
  match ehWalkBlocks blocks ehInit with
  | .error e => .error e
  | .ok st =>
    .ok ⟨dedup st.mains, dedup st.subtypes, st.datePub, st.dateMod,
      st.has_real_author, st.author_name⟩

/-! ## Spec-level view of the classification traversal -/

mutual
/-- Spec-level token stream with contexts: each visited dict node yields
its normalized type tokens paired with its context flag; descending
through `"@graph"` resets the context to root, any other key makes it
nested, and list items inherit the context unchanged. -/
def specTokens : PyVal → Bool → Except String (List (String × Bool))
  | .obj d, r =>
    match typeNorm (PyObj.getD d "@type" (.str "")) with
    | .error e => .error e
    | .ok ts =>
      match specTokensFields d with
      | .error e => .error e
      | .ok rest => .ok (ts.map (fun t => (t, r)) ++ rest)
  | .arr l, r => specTokensItems l r
  | _, _ => .ok []

/-- Tokens found under the values of a dict: the context of a value is
root exactly when its key is `"@graph"`. -/
def specTokensFields : PyObj → Except String (List (String × Bool))
  | .nil => .ok []
  | .cons k v rest =>
    match specTokens v (k == "@graph") with
    | .error e => .error e
    | .ok here =>
      match specTokensFields rest with
      | .error e => .error e
      | .ok tail => .ok (here ++ tail)

/-- Tokens found under the items of a list, all with the inherited
context. -/
def specTokensItems : PyArr → Bool → Except String (List (String × Bool))
  | .nil, _ => .ok []
  | .cons v rest, r =>
    match specTokens v r with
    | .error e => .error e
    | .ok here =>
      match specTokensItems rest r with
      | .error e => .error e
      | .ok tail => .ok (here ++ tail)
end

/-- Token stream of a whole page: every block starts in root context. -/
def specTokensBlocks : List PyVal → Except String (List (String × Bool))
  | [] => .ok []
  | b :: bs =>
    match specTokens b true with
    | .error e => .error e
    | .ok here =>
      match specTokensBlocks bs with
      | .error e => .error e
      | .ok tail => .ok (here ++ tail)

/-- The tokens discovered in root context, in order. -/
def rootTokens (ts : List (String × Bool)) : List String :=
  (ts.filter (fun p => p.2)).map (fun p => p.1)

/-- The tokens discovered in nested context, in order. -/
def nestedTokens (ts : List (String × Bool)) : List String :=
  (ts.filter (fun p => !p.2)).map (fun p => p.1)

theorem ehAuthorDates_tokens (d : PyObj) (cts : List String)
    (st : EhState) : (ehAuthorDates d cts st).mains = st.mains ∧
      (ehAuthorDates d cts st).subtypes = st.subtypes := by
  unfold ehAuthorDates
  dsimp only
  constructor <;> (repeat' split) <;> rfl

theorem rootTokens_append (a b : List (String × Bool)) :
    rootTokens (a ++ b) = rootTokens a ++ rootTokens b := by
  simp [rootTokens]

theorem nestedTokens_append (a b : List (String × Bool)) :
    nestedTokens (a ++ b) = nestedTokens a ++ nestedTokens b := by
  simp [nestedTokens]

theorem rootTokens_ctx (ts : List String) (r : Bool) :
    rootTokens (ts.map fun t => (t, r)) = if r then ts else [] := by
  induction ts with
  | nil => cases r <;> rfl
  | cons t rest ih =>
    cases r <;> simp_all [rootTokens, List.filter_cons]

theorem nestedTokens_ctx (ts : List String) (r : Bool) :
    nestedTokens (ts.map fun t => (t, r)) = if r then [] else ts := by
  induction ts with
  | nil => cases r <;> rfl
  | cons t rest ih =>
    cases r <;> simp_all [nestedTokens, List.filter_cons]

mutual
/-- The walk appends into `mains` exactly the root-context tokens of the
spec-level stream and into `subtypes` exactly the nested-context ones,
failing exactly when the stream fails. -/
theorem ehWalk_tokens (v : PyVal) (r : Bool) (st : EhState) :
    (∃ e e', ehWalk v r st = .error e ∧ specTokens v r = .error e') ∨
    (∃ st' ts, ehWalk v r st = .ok st' ∧ specTokens v r = .ok ts ∧
      st'.mains = st.mains ++ rootTokens ts ∧
      st'.subtypes = st.subtypes ++ nestedTokens ts) := by
  cases v with
  | null => exact Or.inr ⟨st, [], rfl, rfl, by simp [rootTokens], by
      simp [nestedTokens]⟩
  | bool b => exact Or.inr ⟨st, [], rfl, rfl, by simp [rootTokens], by
      simp [nestedTokens]⟩
  | int n => exact Or.inr ⟨st, [], rfl, rfl, by simp [rootTokens], by
      simp [nestedTokens]⟩
  | str s => exact Or.inr ⟨st, [], rfl, rfl, by simp [rootTokens], by
      simp [nestedTokens]⟩
  | arr l =>
    have h := ehWalkItems_tokens l r st
    simpa [ehWalk, specTokens] using h
  | obj d =>
    rw [ehWalk, specTokens, ehNode]
    cases ht : typeNorm (PyObj.getD d "@type" (.str "")) with
    | error e => exact Or.inl ⟨e, e, rfl, rfl⟩
    | ok cts =>
      dsimp only
      have hbase := ehAuthorDates_tokens d cts
        (if r then { st with mains := st.mains ++ cts }
         else { st with subtypes := st.subtypes ++ cts })
      have h := ehWalkFields_tokens d
        (ehAuthorDates d cts
          (if r then { st with mains := st.mains ++ cts }
           else { st with subtypes := st.subtypes ++ cts }))
      cases h with
      | inl h =>
        obtain ⟨e, e', h1, h2⟩ := h
        exact Or.inl ⟨e, e', h1, by simp [h2]⟩
      | inr h =>
        obtain ⟨st', ts, h1, h2, h3, h4⟩ := h
        refine Or.inr ⟨st', (cts.map fun t => (t, r)) ++ ts, h1,
          by simp [h2], ?_, ?_⟩
        · rw [h3, hbase.1, rootTokens_append, rootTokens_ctx]
          cases r <;> simp
        · rw [h4, hbase.2, nestedTokens_append, nestedTokens_ctx]
          cases r <;> simp

theorem ehWalkFields_tokens (d : PyObj) (st : EhState) :
    (∃ e e', ehWalkFields d st = .error e ∧
      specTokensFields d = .error e') ∨
    (∃ st' ts, ehWalkFields d st = .ok st' ∧ specTokensFields d = .ok ts ∧
      st'.mains = st.mains ++ rootTokens ts ∧
      st'.subtypes = st.subtypes ++ nestedTokens ts) := by
  cases d with
  | nil => exact Or.inr ⟨st, [], rfl, rfl, by simp [rootTokens], by
      simp [nestedTokens]⟩
  | cons k v rest =>
    rw [ehWalkFields, specTokensFields]
    cases ehWalk_tokens v (k == "@graph") st with
    | inl h =>
      obtain ⟨e, e', h1, h2⟩ := h
      rw [h1, h2]
      exact Or.inl ⟨e, e', rfl, rfl⟩
    | inr h =>
      obtain ⟨st', ts, h1, h2, h3, h4⟩ := h
      rw [h1, h2]
      dsimp only
      cases ehWalkFields_tokens rest st' with
      | inl h' =>
        obtain ⟨e, e', h1', h2'⟩ := h'
        rw [h1', h2']
        exact Or.inl ⟨e, e', rfl, rfl⟩
      | inr h' =>
        obtain ⟨st'', ts', h1', h2', h3', h4'⟩ := h'
        rw [h1', h2']
        refine Or.inr ⟨st'', ts ++ ts', rfl, rfl, ?_, ?_⟩
        · rw [h3', h3, rootTokens_append, List.append_assoc]
        · rw [h4', h4, nestedTokens_append, List.append_assoc]

theorem ehWalkItems_tokens (l : PyArr) (r : Bool) (st : EhState) :
    (∃ e e', ehWalkItems l r st = .error e ∧
      specTokensItems l r = .error e') ∨
    (∃ st' ts, ehWalkItems l r st = .ok st' ∧
      specTokensItems l r = .ok ts ∧
      st'.mains = st.mains ++ rootTokens ts ∧
      st'.subtypes = st.subtypes ++ nestedTokens ts) := by
  cases l with
  | nil => exact Or.inr ⟨st, [], rfl, rfl, by simp [rootTokens], by
      simp [nestedTokens]⟩
  | cons v rest =>
    rw [ehWalkItems, specTokensItems]
    cases ehWalk_tokens v r st with
    | inl h =>
      obtain ⟨e, e', h1, h2⟩ := h
      rw [h1, h2]
      exact Or.inl ⟨e, e', rfl, rfl⟩
    | inr h =>
      obtain ⟨st', ts, h1, h2, h3, h4⟩ := h
      rw [h1, h2]
      dsimp only
      cases ehWalkItems_tokens rest r st' with
      | inl h' =>
        obtain ⟨e, e', h1', h2'⟩ := h'
        rw [h1', h2']
        exact Or.inl ⟨e, e', rfl, rfl⟩
      | inr h' =>
        obtain ⟨st'', ts', h1', h2', h3', h4'⟩ := h'
        rw [h1', h2']
        refine Or.inr ⟨st'', ts ++ ts', rfl, rfl, ?_, ?_⟩
        · rw [h3', h3, rootTokens_append, List.append_assoc]
        · rw [h4', h4, nestedTokens_append, List.append_assoc]
end

theorem ehWalkBlocks_tokens (bs : List PyVal) (st : EhState) :
    (∃ e e', ehWalkBlocks bs st = .error e ∧
      specTokensBlocks bs = .error e') ∨
    (∃ st' ts, ehWalkBlocks bs st = .ok st' ∧
      specTokensBlocks bs = .ok ts ∧
      st'.mains = st.mains ++ rootTokens ts ∧
      st'.subtypes = st.subtypes ++ nestedTokens ts) := by
  induction bs generalizing st with
  | nil => exact Or.inr ⟨st, [], rfl, rfl, by simp [rootTokens], by
      simp [nestedTokens]⟩
  | cons b rest ih =>
    rw [ehWalkBlocks, specTokensBlocks]
    cases ehWalk_tokens b true st with
    | inl h =>
      obtain ⟨e, e', h1, h2⟩ := h
      rw [h1, h2]
      exact Or.inl ⟨e, e', rfl, rfl⟩
    | inr h =>
      obtain ⟨st', ts, h1, h2, h3, h4⟩ := h
      rw [h1, h2]
      dsimp only
      cases ih st' with
      | inl h' =>
        obtain ⟨e, e', h1', h2'⟩ := h'
        rw [h1', h2']
        exact Or.inl ⟨e, e', rfl, rfl⟩
      | inr h' =>
        obtain ⟨st'', ts', h1', h2', h3', h4'⟩ := h'
        rw [h1', h2']
        refine Or.inr ⟨st'', ts ++ ts', rfl, rfl, ?_, ?_⟩
        · rw [h3', h3, rootTokens_append, List.append_assoc]
        · rw [h4', h4, nestedTokens_append, List.append_assoc]

/-! ## Node predicates over a JSON tree -/

mutual
/-- Does some dict node in the tree (the value itself or any descendant
reachable through object values and list items) satisfy `p`? -/
def existsNode (p : PyObj → Bool) : PyVal → Bool
  | .obj d => p d || existsNodeFields p d
  | .arr l => existsNodeItems p l
  | _ => false

/-- `existsNode` under the values of a dict. -/
def existsNodeFields (p : PyObj → Bool) : PyObj → Bool
  | .nil => false
  | .cons _ v rest => existsNode p v || existsNodeFields p rest

/-- `existsNode` under the items of a list. -/
def existsNodeItems (p : PyObj → Bool) : PyArr → Bool
  | .nil => false
  | .cons v rest => existsNode p v || existsNodeItems p rest
end

mutual
/-- `SubNode d v`: the dict `d` is a node of the tree `v` (the root
itself, or inside an object value or a list item). -/
inductive SubNode : PyObj → PyVal → Prop where
  | here (d : PyObj) : SubNode d (.obj d)
  | inObj {d : PyObj} {o : PyObj} : SubNodeFields d o → SubNode d (.obj o)
  | inArr {d : PyObj} {l : PyArr} : SubNodeItems d l → SubNode d (.arr l)

/-- `d` occurs inside one of the values of a dict. -/
inductive SubNodeFields : PyObj → PyObj → Prop where
  | head {d : PyObj} {k : String} {v : PyVal} {rest : PyObj} :
      SubNode d v → SubNodeFields d (.cons k v rest)
  | tail {d : PyObj} {k : String} {v : PyVal} {rest : PyObj} :
      SubNodeFields d rest → SubNodeFields d (.cons k v rest)

/-- `d` occurs inside one of the items of a list. -/
inductive SubNodeItems : PyObj → PyArr → Prop where
  | head {d : PyObj} {v : PyVal} {rest : PyArr} :
      SubNode d v → SubNodeItems d (.cons v rest)
  | tail {d : PyObj} {v : PyVal} {rest : PyArr} :
      SubNodeItems d rest → SubNodeItems d (.cons v rest)
end

mutual
theorem existsNode_iff (p : PyObj → Bool) : ∀ v : PyVal,
    existsNode p v = true ↔ ∃ d, SubNode d v ∧ p d = true
  | .null => by
    simp only [existsNode]
    constructor
    · intro h; cases h
    · rintro ⟨d, hd, -⟩; cases hd
  | .bool b => by
    simp only [existsNode]
    constructor
    · intro h; cases h
    · rintro ⟨d, hd, -⟩; cases hd
  | .int n => by
    simp only [existsNode]
    constructor
    · intro h; cases h
    · rintro ⟨d, hd, -⟩; cases hd
  | .str s => by
    simp only [existsNode]
    constructor
    · intro h; cases h
    · rintro ⟨d, hd, -⟩; cases hd
  | .obj o => by
    rw [existsNode, Bool.or_eq_true]
    constructor
    · rintro (h | h)
      · exact ⟨o, SubNode.here o, h⟩
      · obtain ⟨d, hd, hp⟩ := (existsNodeFields_iff p o).mp h
        exact ⟨d, SubNode.inObj hd, hp⟩
    · rintro ⟨d, hd, hp⟩
      cases hd with
      | here => exact Or.inl hp
      | inObj h => exact Or.inr ((existsNodeFields_iff p o).mpr ⟨d, h, hp⟩)
  | .arr l => by
    rw [existsNode]
    constructor
    · intro h
      obtain ⟨d, hd, hp⟩ := (existsNodeItems_iff p l).mp h
      exact ⟨d, SubNode.inArr hd, hp⟩
    · rintro ⟨d, hd, hp⟩
      cases hd with
      | inArr h => exact (existsNodeItems_iff p l).mpr ⟨d, h, hp⟩

theorem existsNodeFields_iff (p : PyObj → Bool) : ∀ o : PyObj,
    existsNodeFields p o = true ↔ ∃ d, SubNodeFields d o ∧ p d = true
  | .nil => by
    simp only [existsNodeFields]
    constructor
    · intro h; cases h
    · rintro ⟨d, hd, -⟩; cases hd
  | .cons k v rest => by
    rw [existsNodeFields, Bool.or_eq_true]
    constructor
    · rintro (h | h)
      · obtain ⟨d, hd, hp⟩ := (existsNode_iff p v).mp h
        exact ⟨d, SubNodeFields.head hd, hp⟩
      · obtain ⟨d, hd, hp⟩ := (existsNodeFields_iff p rest).mp h
        exact ⟨d, SubNodeFields.tail hd, hp⟩
    · rintro ⟨d, hd, hp⟩
      cases hd with
      | head h => exact Or.inl ((existsNode_iff p v).mpr ⟨d, h, hp⟩)
      | tail h => exact Or.inr ((existsNodeFields_iff p rest).mpr ⟨d, h, hp⟩)

theorem existsNodeItems_iff (p : PyObj → Bool) : ∀ l : PyArr,
    existsNodeItems p l = true ↔ ∃ d, SubNodeItems d l ∧ p d = true
  | .nil => by
    simp only [existsNodeItems]
    constructor
    · intro h; cases h
    · rintro ⟨d, hd, -⟩; cases hd
  | .cons v rest => by
    rw [existsNodeItems, Bool.or_eq_true]
    constructor
    · rintro (h | h)
      · obtain ⟨d, hd, hp⟩ := (existsNode_iff p v).mp h
        exact ⟨d, SubNodeItems.head hd, hp⟩
      · obtain ⟨d, hd, hp⟩ := (existsNodeItems_iff p rest).mp h
        exact ⟨d, SubNodeItems.tail hd, hp⟩
    · rintro ⟨d, hd, hp⟩
      cases hd with
      | head h => exact Or.inl ((existsNode_iff p v).mpr ⟨d, h, hp⟩)
      | tail h => exact Or.inr ((existsNodeItems_iff p rest).mpr ⟨d, h, hp⟩)
end

/-! ## Deduplication facts -/

theorem mem_dedupAux {y : String} : ∀ (l seen : List String),
    y ∈ dedupAux l seen ↔ y ∈ l ∧ y ∉ seen
  | [], seen => by simp [dedupAux]
  | x :: xs, seen => by
    rw [dedupAux]
    by_cases hx : seen.contains x = true
    · have hxs : x ∈ seen := by simpa using hx
      rw [if_pos hx, mem_dedupAux xs seen]
      simp only [List.mem_cons]
      constructor
      · rintro ⟨h1, h2⟩
        exact ⟨Or.inr h1, h2⟩
      · rintro ⟨h1 | h1, h2⟩
        · exact absurd (h1.symm ▸ hxs) h2
        · exact ⟨h1, h2⟩
    · have hxs : x ∉ seen := by simpa using hx
      rw [if_neg hx]
      simp only [List.mem_cons, mem_dedupAux xs (x :: seen), not_or]
      constructor
      · rintro (h1 | ⟨h1, h2, h3⟩)
        · subst h1
          exact ⟨Or.inl rfl, hxs⟩
        · exact ⟨Or.inr h1, h3⟩
      · rintro ⟨h1 | h1, h2⟩
        · exact Or.inl h1
        · by_cases hyx : y = x
          · exact Or.inl hyx
          · exact Or.inr ⟨h1, hyx, h2⟩

/-- Deduplication preserves membership. -/
theorem mem_dedup {y : String} {l : List String} :
    y ∈ dedup l ↔ y ∈ l := by
  simp [dedup, mem_dedupAux]

theorem getD_of_not_hasKey : ∀ {d : PyObj} {k : String} {dflt : PyVal},
    PyObj.hasKey d k = false → PyObj.getD d k dflt = dflt
  | .nil, _, _, _ => rfl
  | .cons k' v rest, k, dflt, h => by
    rw [PyObj.hasKey, Bool.or_eq_false_iff] at h
    rw [PyObj.getD, if_neg (by simpa using h.1)]
    exact getD_of_not_hasKey h.2

/-! ## C2: pages without any type declaration -/

mutual
/-- On a tree without any `@type` key, the spec-level token stream
succeeds and yields only empty-string tokens. -/
theorem specTokens_noType (v : PyVal) (r : Bool)
    (h : existsNode (fun d => PyObj.hasKey d "@type") v = false) :
    ∃ ts, specTokens v r = .ok ts ∧ ∀ p ∈ ts, Prod.fst p = "" := by
  cases v with
  | null => exact ⟨[], rfl, by simp⟩
  | bool b => exact ⟨[], rfl, by simp⟩
  | int n => exact ⟨[], rfl, by simp⟩
  | str s => exact ⟨[], rfl, by simp⟩
  | arr l =>
    rw [existsNode] at h
    obtain ⟨ts, h1, h2⟩ := specTokensItems_noType l r h
    exact ⟨ts, h1, h2⟩
  | obj d =>
    rw [existsNode, Bool.or_eq_false_iff] at h
    obtain ⟨ts, h1, h2⟩ := specTokensFields_noType d h.2
    refine ⟨("", r) :: ts, ?_, ?_⟩
    · rw [specTokens, getD_of_not_hasKey h.1]
      rw [h1]
      rfl
    · intro p hp
      rcases List.mem_cons.mp hp with hp | hp
      · subst hp; rfl
      · exact h2 p hp

theorem specTokensFields_noType (d : PyObj)
    (h : existsNodeFields (fun d => PyObj.hasKey d "@type") d = false) :
    ∃ ts, specTokensFields d = .ok ts ∧ ∀ p ∈ ts, Prod.fst p = "" := by
  cases d with
  | nil => exact ⟨[], rfl, by simp⟩
  | cons k v rest =>
    rw [existsNodeFields, Bool.or_eq_false_iff] at h
    obtain ⟨ts, h1, h2⟩ := specTokens_noType v (k == "@graph") h.1
    obtain ⟨ts', h1', h2'⟩ := specTokensFields_noType rest h.2
    refine ⟨ts ++ ts', ?_, ?_⟩
    · rw [specTokensFields, h1, h1']
    · intro p hp
      rcases List.mem_append.mp hp with hp | hp
      · exact h2 p hp
      · exact h2' p hp

theorem specTokensItems_noType (l : PyArr) (r : Bool)
    (h : existsNodeItems (fun d => PyObj.hasKey d "@type") l = false) :
    ∃ ts, specTokensItems l r = .ok ts ∧ ∀ p ∈ ts, Prod.fst p = "" := by
  cases l with
  | nil => exact ⟨[], rfl, by simp⟩
  | cons v rest =>
    rw [existsNodeItems, Bool.or_eq_false_iff] at h
    obtain ⟨ts, h1, h2⟩ := specTokens_noType v r h.1
    obtain ⟨ts', h1', h2'⟩ := specTokensItems_noType rest r h.2
    refine ⟨ts ++ ts', ?_, ?_⟩
    · rw [specTokensItems, h1, h1']
    · intro p hp
      rcases List.mem_append.mp hp with hp | hp
      · exact h2 p hp
      · exact h2' p hp
end

theorem specTokensBlocks_noType : ∀ bs : List PyVal,
    (∀ b ∈ bs, existsNode (fun d => PyObj.hasKey d "@type") b = false) →
    ∃ ts, specTokensBlocks bs = .ok ts ∧ ∀ p ∈ ts, Prod.fst p = ""
  | [], _ => ⟨[], rfl, by simp⟩
  | b :: bs, h => by
    obtain ⟨ts, h1, h2⟩ := specTokens_noType b true (h b (by simp))
    obtain ⟨ts', h1', h2'⟩ := specTokensBlocks_noType bs
      (fun b' hb' => h b' (by simp [hb']))
    refine ⟨ts ++ ts', ?_, ?_⟩
    · rw [specTokensBlocks, h1, h1']
    · intro p hp
      rcases List.mem_append.mp hp with hp | hp
      · exact h2 p hp
      · exact h2' p hp

theorem mem_rootTokens {x : String} {ts : List (String × Bool)}
    (h : x ∈ rootTokens ts) : ∃ p ∈ ts, Prod.fst p = x := by
  simp only [rootTokens, List.mem_map, List.mem_filter] at h
  obtain ⟨p, ⟨hp, -⟩, he⟩ := h
  exact ⟨p, hp, he⟩

theorem mem_nestedTokens {x : String} {ts : List (String × Bool)}
    (h : x ∈ nestedTokens ts) : ∃ p ∈ ts, Prod.fst p = x := by
  simp only [nestedTokens, List.mem_map, List.mem_filter] at h
  obtain ⟨p, ⟨hp, -⟩, he⟩ := h
  exact ⟨p, hp, he⟩

/-- C2, counterexample: a block that is an object without any `@type` key
still contributes a token — the default `""` is classified into roots —
so the roots sequence is `[""]`, not empty. -/
theorem untyped_node_contributes_empty_token :
    extract_hierarchical_types [.obj (.cons "a" (.str "x") .nil)] =
      .ok ⟨[""], [], .null, .null, false, .str "No identificado"⟩ ∧
    existsNode (fun d => PyObj.hasKey d "@type")
      (.obj (.cons "a" (.str "x") .nil)) = false ∧
    ([""] : List String) ≠ [] := by
  exact ⟨rfl, rfl, by decide⟩

/-- C2 (amended): on a page where no object node carries an `@type` key,
classification succeeds and every token of both sequences is the
empty-string placeholder `""` (one per object node before deduplication):
the sequences carry no real type token, but an object node without a type
declaration does contribute the empty token rather than nothing. -/
theorem no_type_anywhere_amended (bs : List PyVal)
    (h : ∀ b ∈ bs, existsNode (fun d => PyObj.hasKey d "@type") b = false) :
    ∃ res, extract_hierarchical_types bs = .ok res ∧
      (∀ x ∈ res.mains, x = "") ∧ (∀ x ∈ res.subtypes, x = "") := by
  obtain ⟨ts, hts, hall⟩ := specTokensBlocks_noType bs h
  rcases ehWalkBlocks_tokens bs ehInit with ⟨e, e', he, he'⟩ |
    ⟨st, ts', hw, hs, hm, hsub⟩
  · rw [he'] at hts
    cases hts
  · rw [hts] at hs
    injection hs with hs
    subst hs
    refine ⟨⟨dedup st.mains, dedup st.subtypes, st.datePub, st.dateMod,
      st.has_real_author, st.author_name⟩, ?_, ?_, ?_⟩
    · rw [extract_hierarchical_types, hw]
    · intro x hx
      dsimp only at hx
      rw [mem_dedup, hm] at hx
      simp only [ehInit, List.nil_append] at hx
      obtain ⟨p, hp, he⟩ := mem_rootTokens hx
      rw [← he]
      exact hall p hp
    · intro x hx
      dsimp only at hx
      rw [mem_dedup, hsub] at hx
      simp only [ehInit, List.nil_append] at hx
      obtain ⟨p, hp, he⟩ := mem_nestedTokens hx
      rw [← he]
      exact hall p hp

/-- C2 witness: the amended statement applied to a page with one empty
object block. -/
theorem no_type_anywhere_amended_witness :
    (extract_hierarchical_types [.obj PyObj.nil]).map EhResult.mains
      = .ok [""] ∧ ("" : String) = "" := by
  obtain ⟨res, h1, h2, h3⟩ := no_type_anywhere_amended [.obj PyObj.nil]
    (by decide)
  have hres : res =
      ⟨[""], [], .null, .null, false, .str "No identificado"⟩ := by
    have h0 : Except.ok (ε := String) res =
        .ok (⟨[""], [], .null, .null, false,
          .str "No identificado"⟩ : EhResult) := h1.symm.trans rfl
    injection h0
  rw [h1, hres]
  exact ⟨rfl, h2 "" (by rw [hres]; simp)⟩

/-! ## C4: context propagation -/

/-- A root node with a typed object under an ordinary key. -/
def c4Block : PyVal :=
  .obj (.cons "@type" (.str "P")
    (.cons "child" (.obj (.cons "@type" (.str "B") .nil)) .nil))

/-- The classification of `[c4Block]`. -/
def c4Res : EhResult :=
  ⟨["P"], ["B"], .null, .null, false, .str "No identificado"⟩

/-- C4, counterexample: a block that is an array whose item is a typed
object: the item inherits the root context, so `"A"` lands in roots and
nested stays empty — under the claim's rule (descending through any
array element makes the context non-root) `"A"` would have been
nested. -/
theorem array_descent_keeps_context :
    (extract_hierarchical_types
        [.arr (.cons (.obj (.cons "@type" (.str "A") .nil)) .nil)]).map
      EhResult.mains = .ok ["A"] ∧
    (extract_hierarchical_types
        [.arr (.cons (.obj (.cons "@type" (.str "A") .nil)) .nil)]).map
      EhResult.subtypes = .ok [] := by
  exact ⟨rfl, rfl⟩

/-- C4 (amended): every block is traversed starting in root context;
descending through the `"@graph"` key resets the inherited context to
root, descending through every other object key makes the context nested
regardless of the parent's context, and descending through an array
element leaves the inherited context unchanged. Formally: the walk's
roots/nested sequences are exactly the deduplicated root/nested
projections of the `specTokens` stream, which is defined by precisely
this context discipline; concretely, a type under `"@graph"` inside an
array stays root, and a type under an ordinary key becomes nested. -/
theorem context_propagation_amended :
    (∀ (bs : List PyVal) (res : EhResult),
      extract_hierarchical_types bs = .ok res →
      ∃ ts, specTokensBlocks bs = .ok ts ∧
        res.mains = dedup (rootTokens ts) ∧
        res.subtypes = dedup (nestedTokens ts)) ∧
    ((extract_hierarchical_types
        [.obj (.cons "@graph"
          (.arr (.cons (.obj (.cons "@type" (.str "B") .nil)) .nil))
          .nil)]).map EhResult.mains = .ok ["", "B"]) ∧
    ((extract_hierarchical_types [c4Block]).map EhResult.subtypes
      = .ok ["B"]) := by
  refine ⟨?_, rfl, rfl⟩
  intro bs res h
  rcases ehWalkBlocks_tokens bs ehInit with ⟨e, e', he, -⟩ |
    ⟨st, ts, hw, hs, hm, hsub⟩
  · rw [extract_hierarchical_types, he] at h
    cases h
  · rw [extract_hierarchical_types, hw] at h
    dsimp only at h
    injection h with h
    refine ⟨ts, hs, ?_, ?_⟩
    · rw [← h]
      dsimp only
      rw [hm]
      simp [ehInit]
    · rw [← h]
      dsimp only
      rw [hsub]
      simp [ehInit]

/-- C4 witness: the refinement applied to the concrete page `[c4Block]`,
whose token stream is `[("P", root), ("B", nested)]`. -/
theorem context_propagation_amended_witness :
    (extract_hierarchical_types [c4Block]).map EhResult.mains =
      .ok (dedup (rootTokens [("P", true), ("B", false)])) ∧
    (extract_hierarchical_types [c4Block]).map EhResult.subtypes =
      .ok (dedup (nestedTokens [("P", true), ("B", false)])) := by
  obtain ⟨ts, h1, h2, h3⟩ := context_propagation_amended.1 [c4Block] c4Res rfl
  have hts : ts = [("P", true), ("B", false)] := by
    have h0 : Except.ok (ε := String) ts =
        .ok [("P", true), ("B", false)] := h1.symm.trans rfl
    injection h0
  rw [hts] at h2 h3
  rw [show extract_hierarchical_types [c4Block] = .ok c4Res from rfl]
  exact ⟨by rw [← h2]; rfl, by rw [← h3]; rfl⟩

/-! ## C5: graph container members -/

/-- A graph member declaring a single type. -/
def mkMember (t : String) : PyVal := .obj (.cons "@type" (.str t) .nil)

/-- Members for the given type tokens. -/
def mkMembers : List String → PyArr
  | [] => .nil
  | t :: r => .cons (mkMember t) (mkMembers r)

/-- A graph container block: `{"@graph": [member, ...]}`. -/
def graphBlock (ts : List String) : PyVal :=
  .obj (.cons "@graph" (.arr (mkMembers ts)) .nil)

theorem ehAuthorDates_typeOnly (t : String) (cts : List String)
    (st : EhState) :
    ehAuthorDates (.cons "@type" (.str t) .nil) cts st = st := by
  unfold ehAuthorDates
  simp [PyObj.hasKey, PyObj.getD, pyTruthy]

theorem ehAuthorDates_graphOnly (v : PyVal) (cts : List String)
    (st : EhState) :
    ehAuthorDates (.cons "@graph" v .nil) cts st = st := by
  unfold ehAuthorDates
  simp [PyObj.hasKey, PyObj.getD, pyTruthy]

theorem ehWalk_member (t : String) (st : EhState) :
    ehWalk (mkMember t) true st =
      .ok { st with mains := st.mains ++ [t] } := by
  rw [mkMember, ehWalk, ehNode]
  simp only [PyObj.getD, String.reduceEq, reduceIte, typeNorm, if_pos]
  rw [ehAuthorDates_typeOnly]
  rw [ehWalkFields]
  simp only [ehWalk]
  rw [ehWalkFields]

theorem ehWalkItems_members : ∀ (ts : List String) (st : EhState),
    ehWalkItems (mkMembers ts) true st =
      .ok { st with mains := st.mains ++ ts }
  | [], st => by
    cases st
    simp [mkMembers, ehWalkItems]
  | t :: rest, st => by
    rw [mkMembers, ehWalkItems, ehWalk_member]
    dsimp only
    rw [ehWalkItems_members rest]
    simp [List.append_assoc]

theorem ehWalk_graphBlock (ts : List String) :
    ehWalkBlocks [graphBlock ts] ehInit =
      .ok { ehInit with mains := [""] ++ ts } := by
  rw [ehWalkBlocks, graphBlock, ehWalk, ehNode]
  simp only [PyObj.getD, String.reduceEq, reduceIte, typeNorm]
  rw [ehAuthorDates_graphOnly]
  rw [ehWalkFields]
  simp only [beq_self_eq_true, ehWalk]
  rw [ehWalkItems_members]
  dsimp only
  simp only [ehWalkFields, ehWalkBlocks]
  simp [ehInit]

/-- C5: for a graph container whose `"@graph"` value is an array of
member objects each declaring a single distinct type, every member type
lands in `roots` (together with the container's own `""` placeholder) and
never in `nested`, which stays empty. -/
theorem graph_members_types_are_roots (ts : List String)
    (_hnd : ts.Nodup) :
    (extract_hierarchical_types [graphBlock ts]).map EhResult.mains =
      .ok (dedup ("" :: ts)) ∧
    (extract_hierarchical_types [graphBlock ts]).map EhResult.subtypes =
      .ok [] ∧
    ∀ t ∈ ts, t ∈ dedup ("" :: ts) ∧ t ∉ ([] : List String) := by
  refine ⟨?_, ?_, ?_⟩
  · rw [extract_hierarchical_types, ehWalk_graphBlock]
    rfl
  · rw [extract_hierarchical_types, ehWalk_graphBlock]
    rfl
  · intro t ht
    refine ⟨?_, by simp⟩
    rw [mem_dedup]
    exact List.mem_cons_of_mem _ ht

/-- C5 witness: the statement applied to the two-member graph page. -/
theorem graph_members_types_are_roots_witness :
    (extract_hierarchical_types [graphBlock ["A", "B"]]).map
      EhResult.mains = .ok (dedup ("" :: ["A", "B"])) ∧
    "A" ∈ dedup ("" :: ["A", "B"]) ∧ "A" ∉ ([] : List String) := by
  have h := graph_members_types_are_roots ["A", "B"] (by decide)
  exact ⟨h.1, (h.2.2 "A" (by decide)).1, (h.2.2 "A" (by decide)).2⟩

/-! ## C8: authorship detection -/

/-- Does the node qualify for authorship: its normalized type tokens
intersect the article-like set and it carries a truthy `author`
property? -/
def qualifiesAuthor (d : PyObj) : Bool :=
  (match typeNorm (PyObj.getD d "@type" (.str "")) with
   | .ok cts => articleTypes.any (fun a => cts.contains a)
   | .error _ => false)
  && (PyObj.hasKey d "author" && pyTruthy (PyObj.getD d "author" .null))

theorem ehAuthorDates_author (d : PyObj) (cts : List String)
    (st : EhState) :
    (ehAuthorDates d cts st).has_real_author =
      (st.has_real_author ||
        (articleTypes.any (fun a => cts.contains a) &&
          (PyObj.hasKey d "author" &&
            pyTruthy (PyObj.getD d "author" .null)))) := by
  unfold ehAuthorDates
  dsimp only
  repeat' split
  all_goals simp_all

theorem ehAuthorDates_name (d : PyObj) (cts : List String) (st : EhState) :
    (ehAuthorDates d cts st).author_name = st.author_name ∨
    ((articleTypes.any (fun a => cts.contains a) &&
        (PyObj.hasKey d "author" &&
          pyTruthy (PyObj.getD d "author" .null))) = true ∧
      pyTruthy (get_author_name (PyObj.getD d "author" .null)) = true ∧
      (ehAuthorDates d cts st).author_name =
        get_author_name (PyObj.getD d "author" .null)) := by
  unfold ehAuthorDates
  dsimp only
  repeat' split
  all_goals simp_all

theorem qualifiesAuthor_of_typeNorm {d : PyObj} {cts : List String}
    (h : typeNorm (PyObj.getD d "@type" (.str "")) = .ok cts) :
    qualifiesAuthor d =
      (articleTypes.any (fun a => cts.contains a) &&
        (PyObj.hasKey d "author" &&
          pyTruthy (PyObj.getD d "author" .null))) := by
  unfold qualifiesAuthor
  rw [h]

mutual
/-- The walk's `has_real_author` flag is the old flag or-ed with the
existence of a qualifying node in the subtree. -/
theorem ehWalk_author (v : PyVal) (r : Bool) (st st' : EhState)
    (h : ehWalk v r st = .ok st') :
    st'.has_real_author =
      (st.has_real_author || existsNode qualifiesAuthor v) := by
  cases v with
  | null =>
    injection h with h
    subst h
    simp [existsNode]
  | bool b =>
    injection h with h
    subst h
    simp [existsNode]
  | int n =>
    injection h with h
    subst h
    simp [existsNode]
  | str s =>
    injection h with h
    subst h
    simp [existsNode]
  | arr l =>
    rw [ehWalk] at h
    have h1 := ehWalkItems_author l r st st' h
    simpa [existsNode] using h1
  | obj d =>
    rw [ehWalk, ehNode] at h
    cases ht : typeNorm (PyObj.getD d "@type" (.str "")) with
    | error e =>
      rw [ht] at h
      cases h
    | ok cts =>
      rw [ht] at h
      dsimp only at h
      have hbase : (ehAuthorDates d cts
          (if r then { st with mains := st.mains ++ cts }
           else { st with subtypes := st.subtypes ++ cts
           })).has_real_author =
          (st.has_real_author ||
            (articleTypes.any (fun a => cts.contains a) &&
              (PyObj.hasKey d "author" &&
                pyTruthy (PyObj.getD d "author" .null)))) := by
        rw [ehAuthorDates_author]
        cases r <;> rfl
      have h3 := ehWalkFields_author d _ st' h
      rw [h3, hbase, existsNode, qualifiesAuthor_of_typeNorm ht]
      simp [Bool.or_assoc]

theorem ehWalkFields_author (d : PyObj) (st st' : EhState)
    (h : ehWalkFields d st = .ok st') :
    st'.has_real_author =
      (st.has_real_author || existsNodeFields qualifiesAuthor d) := by
  cases d with
  | nil =>
    injection h with h
    subst h
    simp [existsNodeFields]
  | cons k v rest =>
    rw [ehWalkFields] at h
    cases hw : ehWalk v (k == "@graph") st with
    | error e =>
      rw [hw] at h
      cases h
    | ok stm =>
      rw [hw] at h
      dsimp only at h
      have h1 := ehWalk_author v (k == "@graph") st stm hw
      have h2 := ehWalkFields_author rest stm st' h
      rw [h2, h1, existsNodeFields]
      simp [Bool.or_assoc]

theorem ehWalkItems_author (l : PyArr) (r : Bool) (st st' : EhState)
    (h : ehWalkItems l r st = .ok st') :
    st'.has_real_author =
      (st.has_real_author || existsNodeItems qualifiesAuthor l) := by
  cases l with
  | nil =>
    injection h with h
    subst h
    simp [existsNodeItems]
  | cons v rest =>
    rw [ehWalkItems] at h
    cases hw : ehWalk v r st with
    | error e =>
      rw [hw] at h
      cases h
    | ok stm =>
      rw [hw] at h
      dsimp only at h
      have h1 := ehWalk_author v r st stm hw
      have h2 := ehWalkItems_author rest r stm st' h
      rw [h2, h1, existsNodeItems]
      simp [Bool.or_assoc]
end

theorem ehWalkBlocks_author : ∀ (bs : List PyVal) (st st' : EhState),
    ehWalkBlocks bs st = .ok st' →
    st'.has_real_author =
      (st.has_real_author || bs.any (existsNode qualifiesAuthor))
  | [], st, st', h => by
    injection h with h
    subst h
    simp
  | b :: bs, st, st', h => by
    rw [ehWalkBlocks] at h
    cases hw : ehWalk b true st with
    | error e =>
      rw [hw] at h
      cases h
    | ok stm =>
      rw [hw] at h
      dsimp only at h
      have h1 := ehWalk_author b true st stm hw
      have h2 := ehWalkBlocks_author bs stm st' h
      rw [h2, h1, List.any_cons]
      simp [Bool.or_assoc]

/-- The resolution property a qualifying node may provide. -/
def resolvesName (d : PyObj) (nm : PyVal) : Prop :=
  qualifiesAuthor d = true ∧
  pyTruthy (get_author_name (PyObj.getD d "author" .null)) = true ∧
  nm = get_author_name (PyObj.getD d "author" .null)

mutual
/-- The walk either leaves `author_name` unchanged or sets it to a name
resolved at some qualifying node of the subtree. -/
theorem ehWalk_name (v : PyVal) (r : Bool) (st st' : EhState)
    (h : ehWalk v r st = .ok st') :
    st'.author_name = st.author_name ∨
    ∃ d, SubNode d v ∧ resolvesName d st'.author_name := by
  cases v with
  | null =>
    injection h with h
    subst h
    exact Or.inl rfl
  | bool b =>
    injection h with h
    subst h
    exact Or.inl rfl
  | int n =>
    injection h with h
    subst h
    exact Or.inl rfl
  | str s =>
    injection h with h
    subst h
    exact Or.inl rfl
  | arr l =>
    rw [ehWalk] at h
    rcases ehWalkItems_name l r st st' h with h1 | ⟨d, hd, hr⟩
    · exact Or.inl h1
    · exact Or.inr ⟨d, SubNode.inArr hd, hr⟩
  | obj d =>
    rw [ehWalk, ehNode] at h
    cases ht : typeNorm (PyObj.getD d "@type" (.str "")) with
    | error e =>
      rw [ht] at h
      cases h
    | ok cts =>
      rw [ht] at h
      dsimp only at h
      set base := ehAuthorDates d cts
        (if r then { st with mains := st.mains ++ cts }
         else { st with subtypes := st.subtypes ++ cts }) with hbase
      have htok : (if r then { st with mains := st.mains ++ cts }
          else { st with subtypes := st.subtypes ++ cts
          }).author_name = st.author_name := by
        cases r <;> rfl
      rcases ehWalkFields_name d base st' h with h1 | ⟨d', hd', hr'⟩
      · rcases ehAuthorDates_name d cts
          (if r then { st with mains := st.mains ++ cts }
           else { st with subtypes := st.subtypes ++ cts }) with
          h2 | ⟨hc, htr, he⟩
        · refine Or.inl ?_
          rw [h1, hbase]
          exact h2.trans htok
        · refine Or.inr ⟨d, SubNode.here d, ?_, ?_, ?_⟩
          · rw [qualifiesAuthor_of_typeNorm ht]
            exact hc
          · exact htr
          · rw [h1, hbase]
            exact he
      · exact Or.inr ⟨d', SubNode.inObj hd', hr'⟩

theorem ehWalkFields_name (d : PyObj) (st st' : EhState)
    (h : ehWalkFields d st = .ok st') :
    st'.author_name = st.author_name ∨
    ∃ d', SubNodeFields d' d ∧ resolvesName d' st'.author_name := by
  cases d with
  | nil =>
    injection h with h
    subst h
    exact Or.inl rfl
  | cons k v rest =>
    rw [ehWalkFields] at h
    cases hw : ehWalk v (k == "@graph") st with
    | error e =>
      rw [hw] at h
      cases h
    | ok stm =>
      rw [hw] at h
      dsimp only at h
      rcases ehWalkFields_name rest stm st' h with h2 | ⟨d', hd', hr'⟩
      · rcases ehWalk_name v (k == "@graph") st stm hw with h1 | ⟨d', hd', hr'⟩
        · exact Or.inl (h2.trans h1)
        · refine Or.inr ⟨d', SubNodeFields.head hd', ?_⟩
          rw [h2]
          exact hr'
      · exact Or.inr ⟨d', SubNodeFields.tail hd', hr'⟩

theorem ehWalkItems_name (l : PyArr) (r : Bool) (st st' : EhState)
    (h : ehWalkItems l r st = .ok st') :
    st'.author_name = st.author_name ∨
    ∃ d, SubNodeItems d l ∧ resolvesName d st'.author_name := by
  cases l with
  | nil =>
    injection h with h
    subst h
    exact Or.inl rfl
  | cons v rest =>
    rw [ehWalkItems] at h
    cases hw : ehWalk v r st with
    | error e =>
      rw [hw] at h
      cases h
    | ok stm =>
      rw [hw] at h
      dsimp only at h
      rcases ehWalkItems_name rest r stm st' h with h2 | ⟨d, hd, hr⟩
      · rcases ehWalk_name v r st stm hw with h1 | ⟨d, hd, hr⟩
        · exact Or.inl (h2.trans h1)
        · refine Or.inr ⟨d, SubNodeItems.head hd, ?_⟩
          rw [h2]
          exact hr
      · exact Or.inr ⟨d, SubNodeItems.tail hd, hr⟩
end

theorem ehWalkBlocks_name : ∀ (bs : List PyVal) (st st' : EhState),
    ehWalkBlocks bs st = .ok st' →
    st'.author_name = st.author_name ∨
    ∃ d b, b ∈ bs ∧ SubNode d b ∧ resolvesName d st'.author_name
  | [], st, st', h => by
    injection h with h
    subst h
    exact Or.inl rfl
  | b :: bs, st, st', h => by
    rw [ehWalkBlocks] at h
    cases hw : ehWalk b true st with
    | error e =>
      rw [hw] at h
      cases h
    | ok stm =>
      rw [hw] at h
      dsimp only at h
      rcases ehWalkBlocks_name bs stm st' h with h2 | ⟨d, b', hb', hd, hr⟩
      · rcases ehWalk_name b true st stm hw with h1 | ⟨d, hd, hr⟩
        · exact Or.inl (h2.trans h1)
        · refine Or.inr ⟨d, b, by simp, hd, ?_⟩
          rw [h2]
          exact hr
      · exact Or.inr ⟨d, b', by simp [hb'], hd, hr⟩

/-- An article-like block with an object author. -/
def c8Block : PyVal :=
  .obj (.cons "@type" (.str "NewsArticle")
    (.cons "author" (.obj (.cons "name" (.str "Jane Doe") .nil)) .nil))

/-- The classification of `[c8Block]`. -/
def c8Res : EhResult :=
  ⟨["NewsArticle"], [""], .null, .null, true, .str "Jane Doe"⟩

/-- An article-like block with a truthy author whose name resolves to
nothing (a one-element list holding the empty string). -/
def c8SentinelBlock : PyVal :=
  .obj (.cons "@type" (.str "Article")
    (.cons "author" (.arr (.cons (.str "") .nil)) .nil))

/-- The classification of `[c8SentinelBlock]`. -/
def c8SentinelRes : EhResult :=
  ⟨["Article"], [], .null, .null, true, .str "No identificado"⟩

/-- C8: `has_real_author` is true iff some node whose normalized type
tokens intersect {Article, NewsArticle, BlogPosting, LiveBlogPosting}
carries a truthy `author` property (an `author` key on any other node
never counts); the author name is resolved from a single object by
reading `name` with fallback `alternateName`, from a nonempty array by
recursing into its first element, and from a nonempty bare string by
using it as-is; and when `has_real_author` is true but no qualifying
node resolves a truthy name, the sentinel `"No identificado"` is
reported instead of an empty value. -/
theorem author_detection :
    (∀ (bs : List PyVal) (res : EhResult),
      extract_hierarchical_types bs = .ok res →
      (res.has_real_author = true ↔
        ∃ d b, b ∈ bs ∧ SubNode d b ∧ qualifiesAuthor d = true)) ∧
    (∀ d : PyObj, pyTruthy (PyObj.getD d "name" .null) = true →
      get_author_name (.obj d) = PyObj.getD d "name" .null) ∧
    (∀ d : PyObj, pyTruthy (PyObj.getD d "name" .null) = false →
      get_author_name (.obj d) = PyObj.getD d "alternateName" .null) ∧
    (∀ (v : PyVal) (l : PyArr),
      get_author_name (.arr (.cons v l)) = get_author_name v) ∧
    (∀ s : String, s ≠ "" → get_author_name (.str s) = .str s) ∧
    (∀ (bs : List PyVal) (res : EhResult),
      extract_hierarchical_types bs = .ok res →
      (∀ b ∈ bs, existsNode (fun d => qualifiesAuthor d &&
        pyTruthy (get_author_name (PyObj.getD d "author" .null))) b
          = false) →
      res.author_name = .str "No identificado") := by
  refine ⟨?_, ?_, ?_, ?_, ?_, ?_⟩
  · intro bs res h
    cases hw : ehWalkBlocks bs ehInit with
    | error e =>
      rw [extract_hierarchical_types, hw] at h
      cases h
    | ok st =>
      rw [extract_hierarchical_types, hw] at h
      dsimp only at h
      injection h with h
      have h1 := ehWalkBlocks_author bs ehInit st hw
      rw [← h]
      dsimp only
      rw [h1]
      simp only [ehInit, Bool.false_or, List.any_eq_true]
      constructor
      · rintro ⟨b, hb, hex⟩
        obtain ⟨d, hd, hq⟩ := (existsNode_iff _ b).mp hex
        exact ⟨d, b, hb, hd, hq⟩
      · rintro ⟨d, b, hb, hd, hq⟩
        exact ⟨b, hb, (existsNode_iff _ b).mpr ⟨d, hd, hq⟩⟩
  · intro d h
    rw [get_author_name, pyOr, if_pos h]
  · intro d h
    rw [get_author_name, pyOr, if_neg (by simp [h])]
  · intro v l
    rfl
  · intro s h
    simp [get_author_name, pyTruthy_str_ne h, pyStrTop]
  · intro bs res h hnone
    cases hw : ehWalkBlocks bs ehInit with
    | error e =>
      rw [extract_hierarchical_types, hw] at h
      cases h
    | ok st =>
      rw [extract_hierarchical_types, hw] at h
      dsimp only at h
      injection h with h
      rcases ehWalkBlocks_name bs ehInit st hw with h1 | ⟨d, b, hb, hd, hq, htr, he⟩
      · rw [← h]
        dsimp only
        rw [h1]
        rfl
      · exfalso
        have hex : existsNode (fun d => qualifiesAuthor d &&
            pyTruthy (get_author_name (PyObj.getD d "author" .null))) b
              = true :=
          (existsNode_iff _ b).mpr ⟨d, hd, by simp [hq, htr]⟩
        rw [hnone b hb] at hex
        cases hex

/-- C8 witness: the statement applied to a page with an authored
`NewsArticle` and to a page whose author name resolves to nothing. -/
theorem author_detection_witness :
    (extract_hierarchical_types [c8Block]).map EhResult.has_real_author
      = .ok true ∧
    get_author_name (.str "Jane Doe") = .str "Jane Doe" ∧
    get_author_name
        (.obj (.cons "name" (.str "Jane Doe") .nil)) = .str "Jane Doe" ∧
    (extract_hierarchical_types [c8SentinelBlock]).map
      EhResult.author_name = .ok (.str "No identificado") ∧
    (extract_hierarchical_types [c8SentinelBlock]).map
      EhResult.has_real_author = .ok true := by
  refine ⟨?_, ?_, ?_, ?_, ?_⟩
  · have h := (author_detection.1 [c8Block] c8Res rfl).mpr
      ⟨.cons "@type" (.str "NewsArticle")
        (.cons "author" (.obj (.cons "name" (.str "Jane Doe") .nil)) .nil),
        c8Block, by simp, SubNode.here _, by decide⟩
    rw [show extract_hierarchical_types [c8Block] = .ok c8Res from rfl]
    rw [Except.map, h]
  · exact author_detection.2.2.2.2.1 "Jane Doe" (by decide)
  · exact author_detection.2.1 (.cons "name" (.str "Jane Doe") .nil)
      (by decide)
  · have h := author_detection.2.2.2.2.2 [c8SentinelBlock] c8SentinelRes
      rfl (by decide)
    rw [show extract_hierarchical_types [c8SentinelBlock] =
      .ok c8SentinelRes from rfl]
    rw [Except.map, h]
  · rfl

/-! ## C3: exceptions escaping the traversal -/

/-- C3: contrary to the stated failure policy, exceptions do escape both
traversals on structurally valid JSON: an `@type` whose value is a number
makes `[str(x) for x in t]` raise `TypeError` in
`extract_hierarchical_types`, and a `liveBlogUpdate` list with a
non-object entry makes `up.get(...)` raise `AttributeError` in
`analyze_liveblog`. -/
theorem traversal_exceptions_escape :
    extract_hierarchical_types [.obj (.cons "@type" (.int 5) .nil)] =
      .error "TypeError" ∧
    analyze_liveblog [.obj (.cons "@type" (.str "LiveBlogPosting")
      (.cons "liveBlogUpdate" (.arr (.cons (.int 7) .nil)) .nil))] =
      .error "AttributeError" := by
  exact ⟨rfl, rfl⟩

/-! ## C10: the Nested-Relationship Checker -/

/-- Modelled from the spec: a node counts as a qualifying child for
`childSelector` when its declared type set contains the selector or it
has a property literally named by it (§4.6 (a)/(b)). `src/app.py` does
not implement the Nested-Relationship Checker; only the spec describes
it. -/
def isChildNode (cs : String) (d : PyObj) : Bool :=
  (declaredTypes d).contains cs || PyObj.hasKey d cs

mutual
/-- Modelled from the spec: the depth-first search of
`containsNested` (§4.6): the "parent found" condition, once true for an
ancestor, remains true for the entire subtree below it, and a node
reports a hit when the condition holds and the node qualifies as a
child. `src/app.py` does not implement this operation. -/
def cnWalk (pt cs : String) (found : Bool) : PyVal → Bool
  | .obj d =>
    ((found || (declaredTypes d).contains pt) && isChildNode cs d) ||
      cnFields pt cs (found || (declaredTypes d).contains pt) d
  | .arr l => cnItems pt cs found l
  | _ => false

/-- The search under the values of a dict. -/
def cnFields (pt cs : String) (found : Bool) : PyObj → Bool
  | .nil => false
  | .cons _ v rest =>
    cnWalk pt cs found v || cnFields pt cs found rest

/-- The search under the items of a list. -/
def cnItems (pt cs : String) (found : Bool) : PyArr → Bool
  | .nil => false
  | .cons v rest =>
    cnWalk pt cs found v || cnItems pt cs found rest
end

/-- Modelled from the spec: `containsNested(blocks, parentType,
childSelector)` (§4.6), searching each block with the parent condition
initially false. -/
def containsNested (blocks : List PyVal) (pt cs : String) : Bool :=
  blocks.any (cnWalk pt cs false)

/-- A parent-typed node whose subtree holds a qualifying child. -/
def cnParentAt (pt cs : String) (d : PyObj) : Prop :=
  (declaredTypes d).contains pt = true ∧
  existsNode (isChildNode cs) (.obj d) = true

mutual
theorem cnWalk_iff (pt cs : String) : ∀ (v : PyVal) (found : Bool),
    cnWalk pt cs found v = true ↔
      ((found = true ∧ existsNode (isChildNode cs) v = true) ∨
        ∃ d, SubNode d v ∧ cnParentAt pt cs d)
  | .null, found => by
    simp only [cnWalk, existsNode]
    constructor
    · intro h; cases h
    · rintro (⟨-, h⟩ | ⟨d, hd, -⟩)
      · cases h
      · cases hd
  | .bool b, found => by
    simp only [cnWalk, existsNode]
    constructor
    · intro h; cases h
    · rintro (⟨-, h⟩ | ⟨d, hd, -⟩)
      · cases h
      · cases hd
  | .int n, found => by
    simp only [cnWalk, existsNode]
    constructor
    · intro h; cases h
    · rintro (⟨-, h⟩ | ⟨d, hd, -⟩)
      · cases h
      · cases hd
  | .str s, found => by
    simp only [cnWalk, existsNode]
    constructor
    · intro h; cases h
    · rintro (⟨-, h⟩ | ⟨d, hd, -⟩)
      · cases h
      · cases hd
  | .arr l, found => by
    rw [cnWalk, existsNode, cnItems_iff pt cs l found]
    constructor
    · rintro (⟨hf, he⟩ | ⟨d, hd, hp⟩)
      · exact Or.inl ⟨hf, he⟩
      · exact Or.inr ⟨d, SubNode.inArr hd, hp⟩
    · rintro (⟨hf, he⟩ | ⟨d, hd, hp⟩)
      · exact Or.inl ⟨hf, he⟩
      · cases hd with
        | inArr h => exact Or.inr ⟨d, h, hp⟩
  | .obj o, found => by
    rw [cnWalk]
    simp only [Bool.or_eq_true, Bool.and_eq_true]
    rw [cnFields_iff pt cs o (found || (declaredTypes o).contains pt)]
    simp only [Bool.or_eq_true]
    constructor
    · rintro (⟨hf | hp, hc⟩ | ⟨hf | hp, he⟩ | ⟨d, hd, hpd⟩)
      · refine Or.inl ⟨hf, ?_⟩
        rw [existsNode, hc]
        simp
      · refine Or.inr ⟨o, SubNode.here o, hp, ?_⟩
        rw [existsNode, hc]
        simp
      · refine Or.inl ⟨hf, ?_⟩
        rw [existsNode, he]
        simp
      · refine Or.inr ⟨o, SubNode.here o, hp, ?_⟩
        rw [existsNode, he]
        simp
      · exact Or.inr ⟨d, SubNode.inObj hd, hpd⟩
    · rintro (⟨hf, he⟩ | ⟨d, hd, hp, hc⟩)
      · rw [existsNode, Bool.or_eq_true] at he
        rcases he with he | he
        · exact Or.inl ⟨Or.inl hf, he⟩
        · exact Or.inr (Or.inl ⟨Or.inl hf, he⟩)
      · cases hd with
        | here =>
          rw [existsNode, Bool.or_eq_true] at hc
          rcases hc with hc | hc
          · exact Or.inl ⟨Or.inr hp, hc⟩
          · exact Or.inr (Or.inl ⟨Or.inr hp, hc⟩)
        | inObj h => exact Or.inr (Or.inr ⟨d, h, hp, hc⟩)

theorem cnFields_iff (pt cs : String) : ∀ (o : PyObj) (found : Bool),
    cnFields pt cs found o = true ↔
      ((found = true ∧ existsNodeFields (isChildNode cs) o = true) ∨
        ∃ d, SubNodeFields d o ∧ cnParentAt pt cs d)
  | .nil, found => by
    simp only [cnFields, existsNodeFields]
    constructor
    · intro h; cases h
    · rintro (⟨-, h⟩ | ⟨d, hd, -⟩)
      · cases h
      · cases hd
  | .cons k v rest, found => by
    rw [cnFields, Bool.or_eq_true, cnWalk_iff pt cs v found,
      cnFields_iff pt cs rest found, existsNodeFields]
    constructor
    · rintro ((⟨hf, he⟩ | ⟨d, hd, hp⟩) | (⟨hf, he⟩ | ⟨d, hd, hp⟩))
      · exact Or.inl ⟨hf, by rw [he]; simp⟩
      · exact Or.inr ⟨d, SubNodeFields.head hd, hp⟩
      · exact Or.inl ⟨hf, by rw [he]; simp⟩
      · exact Or.inr ⟨d, SubNodeFields.tail hd, hp⟩
    · rintro (⟨hf, he⟩ | ⟨d, hd, hp⟩)
      · rw [Bool.or_eq_true] at he
        rcases he with he | he
        · exact Or.inl (Or.inl ⟨hf, he⟩)
        · exact Or.inr (Or.inl ⟨hf, he⟩)
      · cases hd with
        | head h => exact Or.inl (Or.inr ⟨d, h, hp⟩)
        | tail h => exact Or.inr (Or.inr ⟨d, h, hp⟩)

theorem cnItems_iff (pt cs : String) : ∀ (l : PyArr) (found : Bool),
    cnItems pt cs found l = true ↔
      ((found = true ∧ existsNodeItems (isChildNode cs) l = true) ∨
        ∃ d, SubNodeItems d l ∧ cnParentAt pt cs d)
  | .nil, found => by
    simp only [cnItems, existsNodeItems]
    constructor
    · intro h; cases h
    · rintro (⟨-, h⟩ | ⟨d, hd, -⟩)
      · cases h
      · cases hd
  | .cons v rest, found => by
    rw [cnItems, Bool.or_eq_true, cnWalk_iff pt cs v found,
      cnItems_iff pt cs rest found, existsNodeItems]
    constructor
    · rintro ((⟨hf, he⟩ | ⟨d, hd, hp⟩) | (⟨hf, he⟩ | ⟨d, hd, hp⟩))
      · exact Or.inl ⟨hf, by rw [he]; simp⟩
      · exact Or.inr ⟨d, SubNodeItems.head hd, hp⟩
      · exact Or.inl ⟨hf, by rw [he]; simp⟩
      · exact Or.inr ⟨d, SubNodeItems.tail hd, hp⟩
    · rintro (⟨hf, he⟩ | ⟨d, hd, hp⟩)
      · rw [Bool.or_eq_true] at he
        rcases he with he | he
        · exact Or.inl (Or.inl ⟨hf, he⟩)
        · exact Or.inr (Or.inl ⟨hf, he⟩)
      · cases hd with
        | head h => exact Or.inl (Or.inr ⟨d, h, hp⟩)
        | tail h => exact Or.inr (Or.inr ⟨d, h, hp⟩)
end

/-- A `NewsArticle` with an `ImageObject` inside its subtree. -/
def c10InBlock : PyVal :=
  .obj (.cons "@type" (.str "NewsArticle")
    (.cons "image" (.obj (.cons "@type" (.str "ImageObject") .nil)) .nil))

/-- A document where the `ImageObject` lives outside every `NewsArticle`
subtree. -/
def c10OutBlocks : List PyVal :=
  [.obj (.cons "@type" (.str "NewsArticle") .nil),
    .obj (.cons "@type" (.str "ImageObject") .nil)]

/-- C10: `containsNested(blocks, parentType, childSelector)` is true iff
some node in some block declares a type set containing `parentType` and
some node of the subtree rooted there (including the node itself) either
declares a type set containing `childSelector` or has a property named
`childSelector`; it is false when no such parent exists or no qualifying
child lies beneath one — in particular true for an `ImageObject` nested
under a `NewsArticle` and false when the `ImageObject` sits outside
every `NewsArticle` subtree. -/
theorem containsNested_spec :
    (∀ (bs : List PyVal) (pt cs : String),
      containsNested bs pt cs = true ↔
        ∃ d b, b ∈ bs ∧ SubNode d b ∧
          (declaredTypes d).contains pt = true ∧
          existsNode (isChildNode cs) (.obj d) = true) ∧
    containsNested [c10InBlock] "NewsArticle" "ImageObject" = true ∧
    containsNested c10OutBlocks "NewsArticle" "ImageObject" = false := by
  refine ⟨?_, by decide, by decide⟩
  intro bs pt cs
  unfold containsNested
  rw [List.any_eq_true]
  constructor
  · rintro ⟨b, hb, hw⟩
    rcases (cnWalk_iff pt cs b false).mp hw with ⟨hf, -⟩ | ⟨d, hd, hp, hc⟩
    · cases hf
    · exact ⟨d, b, hb, hd, hp, hc⟩
  · rintro ⟨d, b, hb, hd, hp, hc⟩
    exact ⟨b, hb, (cnWalk_iff pt cs b false).mpr (Or.inr ⟨d, hd, hp, hc⟩)⟩

/-- C10 witness: the characterization applied to the nested page. -/
theorem containsNested_spec_witness :
    containsNested [c10InBlock] "NewsArticle" "ImageObject" = true := by
  exact (containsNested_spec.1 [c10InBlock] "NewsArticle"
    "ImageObject").mpr
    ⟨.cons "@type" (.str "NewsArticle")
      (.cons "image" (.obj (.cons "@type" (.str "ImageObject") .nil))
        .nil),
      c10InBlock, by simp, SubNode.here _, by decide, by decide⟩
